import Mathlib

/-!
Verification development for the XRAI video-feed ranking engine.

The engine consists of:
* a keyword extractor, user-profile builder, scorer and ranker
  (`extractKeywords`, `buildUserProfile`, `rankVideos`);
* a ratio-mix feed engine and a short-form feed engine
  (`getXraiRecsMix`, `getXraiShorts`);
* a fan-out/fan-in candidate sourcer (`xraiRawCalls`, `xraiAllCandidates`).

Modelling conventions:
* JavaScript numbers produced by `Math.exp` / `Math.log10` arithmetic are
  modelled over `ℝ`; externally supplied penalty weights (the negative-keyword
  map) are modelled over `ℚ` so that the threshold comparison stays decidable.
* `Math.random`-driven shuffles and the float-comparator `Array.sort` are
  modelled as explicit function parameters; theorems assume only that they
  permute their input, which every run of the source satisfies.
* Promises are modelled by `Except Unit`: a rejected promise is `.error ()`,
  `.catch(() => [])` is `settle`, and `Promise.allSettled` fan-in is
  concatenation of the settled contributions.
-/

/-! ## Data model -/

/-- Video value, as consumed by the ranking engine (src/types: id, title,
channel id/name, human-formatted view count and recency strings, optional
duration strings and description snippet). -/
structure Video where
  id : String
  title : String
  channelId : String
  channelName : String
  views : String
  uploadedAt : String
  duration : String
  isoDuration : Option String
  descriptionSnippet : Option String
  deriving DecidableEq, Repr

/-- Channel value (id, display name, avatar, subscriber-count string). -/
structure Channel where
  id : String
  name : String
  avatarUrl : String
  subscriberCount : String
  deriving DecidableEq, Repr

/-- Blocked-channel entry from `PreferenceContext` (only the `id` field is
consumed by the engine). -/
structure BlockedChannel where
  id : String
  deriving DecidableEq, Repr

/-- Hidden-video entry from `PreferenceContext` (only the `id` field is
consumed by the engine). -/
structure HiddenVideo where
  id : String
  deriving DecidableEq, Repr

/-! ## Character-level helpers

These model the JavaScript string primitives used by the engine.
`isStripped` is a partial, explicit table of the Unicode
`\p{S}\p{P}\p{Z}\p{C}` classes of the source's cleaning regex, restricted to
the blocks exercised by this development (ASCII, general punctuation, CJK
punctuation — which contains the source's second, explicit bracket class —
and fullwidth punctuation); characters outside the table are treated as word
characters.  `isSpaceChar` is the JavaScript `\s` class and is contained in
`isStripped`. -/

/-- Lower-casing of a single character (ASCII range; `toLowerCase` is the
identity on the Japanese text handled here). -/
def lowerChar (c : Char) : Char :=
  if 65 ≤ c.toNat && c.toNat ≤ 90 then Char.ofNat (c.toNat + 32) else c

/-- Lower-casing of a string, modelling `String.prototype.toLowerCase`. -/
def strToLower (s : String) : String :=
  String.mk (s.data.map lowerChar)

/-- Characters replaced by a space by the source's cleaning regexes
(`[\p{S}\p{P}\p{Z}\p{C}]` and the explicit bracket class). -/
def isStripped (c : Char) : Bool :=
  let n := c.toNat
  n ≤ 0x20 ||
  (0x21 ≤ n && n ≤ 0x2F) || (0x3A ≤ n && n ≤ 0x40) ||
  (0x5B ≤ n && n ≤ 0x60) || (0x7B ≤ n && n ≤ 0x7F) ||
  n == 0xA0 || n == 0x1680 ||
  (0x2000 ≤ n && n ≤ 0x206F) ||
  (0x3000 ≤ n && n ≤ 0x303F) ||
  n == 0x30FB ||
  (0xFE30 ≤ n && n ≤ 0xFE4F) ||
  (0xFF01 ≤ n && n ≤ 0xFF0F) || (0xFF1A ≤ n && n ≤ 0xFF20) ||
  (0xFF3B ≤ n && n ≤ 0xFF40) || (0xFF5B ≤ n && n ≤ 0xFF65) ||
  n == 0xFEFF

/-- The JavaScript `\s` whitespace class. -/
def isSpaceChar (c : Char) : Bool :=
  let n := c.toNat
  n == 0x20 || (0x09 ≤ n && n ≤ 0x0D) || n == 0xA0 || n == 0x1680 ||
  (0x2000 ≤ n && n ≤ 0x200A) || n == 0x2028 || n == 0x2029 ||
  n == 0x202F || n == 0x205F || n == 0x3000 || n == 0xFEFF

/-- Line terminators, which the JavaScript `.` pattern does not match. -/
def isNewlineChar (c : Char) : Bool :=
  c == '\n' || c == '\r' || c.toNat == 0x2028 || c.toNat == 0x2029

/-- ASCII digit test (`\d`). -/
def isDigitChar (c : Char) : Bool :=
  48 ≤ c.toNat && c.toNat ≤ 57

/-- Decides whether `needle` is an initial segment of `hay`. -/
def leadsWith : List Char → List Char → Bool
  | [], _ => true
  | _ :: _, [] => false
  | a :: as, b :: bs => a == b && leadsWith as bs

/-- Substring containment, modelling `String.prototype.includes`. -/
def subInside (needle hay : List Char) : Bool :=
  (List.range (hay.length + 1)).any (fun i => leadsWith needle (hay.drop i))

/-- Word accumulator for `splitWords`: `acc` holds the current in-progress
word, reversed. -/
def splitWordsAux : List Char → List Char → List (List Char)
  | [], acc => if acc.isEmpty then [] else [acc.reverse]
  | c :: rest, acc =>
    if isSpaceChar c then
      if acc.isEmpty then splitWordsAux rest []
      else acc.reverse :: splitWordsAux rest []
    else splitWordsAux rest (c :: acc)

/-- Maximal runs of non-whitespace characters.  This models the source's
`split(/\s+/)`: the two differ only in empty strings at the boundaries, which
the subsequent `length > 1` filter removes in both cases. -/
def splitWords (cs : List Char) : List (List Char) :=
  splitWordsAux cs []

/-- Seen-set accumulator for `dedupFirst`. -/
def dedupFirstAux : List String → List String → List String
  | [], _ => []
  | s :: rest, seen =>
    if seen.contains s then dedupFirstAux rest seen
    else s :: dedupFirstAux rest (s :: seen)

/-- First-occurrence deduplication, modelling `Array.from(new Set(xs))`. -/
def dedupFirst (l : List String) : List String :=
  dedupFirstAux l []

/-! ## Keyword extraction (src/unnamed/part_000, `extractKeywords`) -/

/-- Japanese stop words of the extractor. -/
def japaneseStopWords : List String :=
  ["の", "に", "は", "を", "が", "で", "です", "ます", "こと", "もの", "これ", "それ", "あれ",
   "いる", "する", "ある", "ない", "から", "まで", "と", "も", "や", "など", "さん", "ちゃん"]

/-- English stop words of the extractor. -/
def englishStopWords : List String :=
  ["a", "an", "the", "is", "are", "was", "were", "in", "on", "at", "to", "for", "of",
   "it", "you", "he", "she", "they", "we", "i", "and", "or", "but", "by", "with"]

/-- Stop-word membership test. -/
def stopWord (w : String) : Bool :=
  japaneseStopWords.contains w || englishStopWords.contains w

/-- Purely numeric token test (`/^\d+$/`). -/
def isNumericWord (w : String) : Bool :=
  !w.data.isEmpty && w.data.all isDigitChar

/-- Lower-case the text, then replace every stripped-class character by a
space (the source applies `toLowerCase` first, then the two replaces; the
explicit bracket class is contained in the Unicode-class pass). -/
def cleanChars (cs : List Char) : List Char :=
  cs.map (fun c => let lc := lowerChar c; if isStripped lc then ' ' else lc)

/-- Keyword extraction: clean, split on whitespace, keep tokens of length
at least 2 that are neither stop words nor purely numeric, deduplicate
keeping first occurrences. -/
def extractKeywords (text : String) : List String :=
  if text = "" then []
  else
    let words := (splitWords (cleanChars text.data)).map String.mk
    let words2 := words.filter (fun w => w.length > 1)
    let kws := words2.filter (fun w => !stopWord w && !isNumericWord w)
    dedupFirst kws

/-- Character-level interleaving of words with single spaces. -/
def joinChars : List (List Char) → List Char
  | [] => []
  | [w] => w
  | w :: ws => w ++ ' ' :: joinChars ws

/-- Join tokens with single spaces (`Array.prototype.join(' ')`). -/
def joinSpace (l : List String) : String :=
  String.mk (joinChars (l.map String.data))

/-! ## Recency and view-count parsing (src/unnamed/part_000) -/

/-- Decimal value of a digit run (the value `parseInt` returns on it). -/
def charsToNat (cs : List Char) : Nat :=
  cs.foldl (fun a c => a * 10 + (c.toNat - 48)) 0

/-- First maximal digit run of the text, modelling `text.match(/(\d+)/)`
followed by `parseInt`. -/
def firstNumber : List Char → Option Nat
  | [] => none
  | c :: rest =>
    if isDigitChar c then some (charsToNat (c :: rest.takeWhile isDigitChar))
    else firstNumber rest

/-- Dispatch of the recency parser on the lower-cased text: read the first
number, then match the Japanese unit suffixes in the source's order. -/
def parseUploadedAtCore (text : List Char) : Nat :=
  let num := (firstNumber text).getD 0
  if subInside "分前".data text || subInside "時間前".data text then 0
  else if subInside "日前".data text then num
  else if subInside "週間前".data text then num * 7
  else if subInside "か月前".data text then num * 30
  else if subInside "年前".data text then num * 365
  else 999

/-- Recency parser `parseUploadedAt`: empty input yields the sentinel 999,
otherwise dispatch on the lower-cased text. -/
def parseUploadedAt (uploadedAt : String) : Nat :=
  if uploadedAt = "" then 999
  else parseUploadedAtCore (uploadedAt.data.map lowerChar)

/-- View-count parser: strip all non-digits and read the number; an empty
digit string is a parse failure (`parseInt('') = NaN`). -/
def parseViews (views : String) : Option Nat :=
  let ds := views.data.filter isDigitChar
  if ds.isEmpty then none else some (charsToNat ds)

/-! ## User profile (src/unnamed/part_000, `buildUserProfile`)

The JavaScript `Map` is modelled as an insertion-ordered association list so
that its entry iteration (used by the candidate sourcer's top-keyword pick)
is available. -/

/-- Affinity profile: insertion-ordered keyword-to-weight map. -/
abbrev KwMap := List (String × ℝ)

/-- Map lookup (`Map.prototype.get`). -/
def kwGet (m : KwMap) (k : String) : Option ℝ :=
  (m.find? (fun p => p.1 == k)).map (fun p => p.2)

/-- Map insertion/update (`Map.prototype.set`): updates in place, appends new
keys at the end, preserving insertion order. -/
def kwSet (m : KwMap) (k : String) (v : ℝ) : KwMap :=
  if m.any (fun p => p.1 == k) then m.map (fun p => if p.1 == k then (p.1, v) else p)
  else m ++ [(k, v)]

/-- Add `weight` to every keyword extracted from `text`
(`keywords.set(kw, (keywords.get(kw) || 0) + weight)`). -/
noncomputable def addKeywords (m : KwMap) (text : String) (w : ℝ) : KwMap :=
  (extractKeywords text).foldl (fun acc kw => kwSet acc kw ((kwGet acc kw).getD 0 + w)) m

/-- User-state snapshot consumed by the profile builder. -/
structure UserSources where
  watchHistory : List Video
  searchHistory : List String
  subscribedChannels : List Channel

/-- Profile builder: search terms at position `i` weigh `3·exp(-i/5)`;
watched videos at position `i` weigh `2·exp(-i/10)` for title keywords,
`0.8×` that for channel-name keywords and `0.5×` that for description
keywords; subscribed channel names weigh a flat `1.5`. -/
noncomputable def buildUserProfile (s : UserSources) : KwMap :=
  let m0 : KwMap := []
  let m1 := s.searchHistory.enum.foldl
    (fun acc p => addKeywords acc p.2 (3 * Real.exp (-(p.1 : ℝ) / 5))) m0
  let m2 := s.watchHistory.enum.foldl
    (fun acc p =>
      let w := 2 * Real.exp (-(p.1 : ℝ) / 10)
      let acc1 := addKeywords acc p.2.title w
      let acc2 := addKeywords acc1 p.2.channelName (w * 0.8)
      addKeywords acc2 (p.2.descriptionSnippet.getD "") (w * 0.5)) m1
  s.subscribedChannels.foldl (fun acc c => addKeywords acc c.name 1.5) m2

/-! ## Scoring and ranking (src/unnamed/part_000, `rankVideos`) -/

/-- Exclusion context passed to `rankVideos`. -/
structure ScoringContext where
  ngKeywords : List String
  ngChannels : List String
  watchHistory : List Video

/-- The candidate text scored and matched against NG keywords:
lower-cased `title channelName descriptionSnippet`. -/
def fullTextOf (v : Video) : String :=
  strToLower (v.title ++ " " ++ v.channelName ++ " " ++ v.descriptionSnippet.getD "")

/-- NG-keyword rejection test: some NG keyword occurs (lower-cased) as a
substring of the candidate text. -/
def ngKeywordHit (ngKeywords : List String) (fullText : String) : Bool :=
  ngKeywords.any (fun ng => subInside (strToLower ng).data fullText.data)

/-- Relevance sub-score: sum of the profile's weights over the candidate's
extracted keywords (absent keywords contribute 0). -/
noncomputable def relevanceOf (profile : KwMap) (v : Video) : ℝ :=
  ((extractKeywords (fullTextOf v)).map (fun kw => (kwGet profile kw).getD 0)).sum

/-- Popularity sub-score: `log10(views + 1)`, or 0 on parse failure. -/
noncomputable def popularityOf (v : Video) : ℝ :=
  match parseViews v.views with
  | some n => Real.logb 10 ((n : ℝ) + 1)
  | none => 0

/-- Freshness sub-score from a day count: `max(0, 1 - daysAgo/60) * 5`. -/
noncomputable def freshnessScoreOfDays (daysAgo : Nat) : ℝ :=
  max 0 (1 - (daysAgo : ℝ) / 60) * 5

/-- Freshness sub-score of a candidate. -/
noncomputable def freshnessOf (v : Video) : ℝ :=
  freshnessScoreOfDays (parseUploadedAt v.uploadedAt)

/-- Final composite score: `relevance*1.5 + popularity*0.3 + freshness*1.0`. -/
noncomputable def scoreVideo (profile : KwMap) (v : Video) : ℝ :=
  relevanceOf profile v * 1.5 + popularityOf v * 0.3 + freshnessOf v * 1.0

/-- One step of the scoring loop of `rankVideos`: skip falsy/duplicate ids,
NG-keyword hits and NG channels; otherwise score the candidate, record it and
mark its id seen. -/
noncomputable def scoreStep (profile : KwMap) (ctx : ScoringContext)
    (st : List String × List (Video × ℝ)) (v : Video) :
    List String × List (Video × ℝ) :=
  if v.id = "" || st.1.contains v.id then st
  else if ngKeywordHit ctx.ngKeywords (fullTextOf v) then st
  else if ctx.ngChannels.contains v.channelId then st
  else (v.id :: st.1, st.2 ++ [(v, scoreVideo profile v)])

/-- Scoring pass of `rankVideos`: fold over the candidates with the seen-id
set seeded from the watch history. -/
noncomputable def scorePass (profile : KwMap) (ctx : ScoringContext)
    (videos : List Video) : List (Video × ℝ) :=
  (videos.foldl (scoreStep profile ctx) (ctx.watchHistory.map (fun v => v.id), [])).2

/-- Diversity pass: walk the list once, admitting a candidate only while its
channel's running count is below `cap`; rejected candidates are dropped. -/
def diversify (cap : Nat) (scored : List (Video × ℝ)) : List Video :=
  (scored.foldl
    (fun (st : List Video × (String → Nat)) p =>
      if st.2 p.1.channelId < cap then
        (st.1 ++ [p.1], fun c => if c == p.1.channelId then st.2 c + 1 else st.2 c)
      else st)
    ([], fun _ => 0)).1

/-- Ranker `rankVideos`: score, sort by score descending (the float-comparator
`Array.sort`, abstracted as `sortScored`), then diversify with cap 3
(`MAX_FROM_SAME_CHANNEL`). -/
noncomputable def rankVideos (sortScored : List (Video × ℝ) → List (Video × ℝ))
    (videos : List Video) (profile : KwMap) (ctx : ScoringContext) : List Video :=
  diversify 3 (sortScored (scorePass profile ctx videos))

/-! ## Ratio-mix feed engines (src/api/stream.js) -/

/-- Result of a catalog search call (`res.videos`, `res.shorts`). -/
structure SearchResult where
  videos : List Video
  shorts : List Video
  deriving Repr

/-- Settled outcome of a call, modelling `.catch(() => [])`: a rejected call
contributes the empty list. -/
def settle (r : Except Unit (List Video)) : List Video :=
  match r with
  | .ok vs => vs
  | .error _ => []

/-- User-state snapshot consumed by the ratio-mix engines. -/
structure RecSource where
  searchHistory : List String
  watchHistory : List Video
  shortsHistory : Option (List Video)
  subscribedChannels : List Channel
  ngKeywords : List String
  ngChannels : List BlockedChannel
  hiddenVideos : List HiddenVideo
  negativeKeywords : List (String × ℚ)
  page : Nat

/-- Candidate text of the ratio-mix filters: lower-cased `title channelName`. -/
def mixFullText (v : Video) : String :=
  strToLower (v.title ++ " " ++ v.channelName)

/-- Negative-keyword map lookup. -/
def negLookup (neg : List (String × ℚ)) (k : String) : Option ℚ :=
  (neg.find? (fun p => p.1 == k)).map (fun p => p.2)

/-- Aggregate negative-keyword penalty over the candidate's extracted title
and channel-name keywords (keywords occurring in both lists count twice, as
in the source's concatenation). -/
def negScore (neg : List (String × ℚ)) (v : Video) : ℚ :=
  ((extractKeywords v.title ++ extractKeywords v.channelName).map
    (fun k => (negLookup neg k).getD 0)).sum

/-- Non-greedy removal of `【...】`, `[...]`, `(...)` spans, then trim,
split on single spaces, keep the first 4 words (`cleanTitleForSearch`). -/
def closerFor (c : Char) : Option Char :=
  if c = '【' then some '】'
  else if c = '[' then some ']'
  else if c = '(' then some ')'
  else none

/-- Remove bracketed spans as the source's non-greedy global regex does: at an
opener, the span extends to the first matching closer provided no line
terminator intervenes (`.` does not match line terminators). -/
def stripBrackets : List Char → List Char
  | [] => []
  | c :: rest =>
    match closerFor c with
    | none => c :: stripBrackets rest
    | some cl =>
      let pre := rest.takeWhile (fun d => d != cl)
      if pre.length < rest.length && pre.all (fun d => !isNewlineChar d) then
        stripBrackets (rest.drop (pre.length + 1))
      else c :: stripBrackets rest
termination_by cs => cs.length
decreasing_by
  all_goals simp only [List.length_cons, List.length_drop]
  all_goals omega

/-- JavaScript `String.prototype.trim`. -/
def strTrim (cs : List Char) : List Char :=
  ((cs.dropWhile isSpaceChar).reverse.dropWhile isSpaceChar).reverse

/-- JavaScript `split(' ')` on a single-space separator (keeps empty parts). -/
def splitOnSpaceExact : List Char → List (List Char)
  | [] => [[]]
  | c :: rest =>
    if c = ' ' then [] :: splitOnSpaceExact rest
    else
      match splitOnSpaceExact rest with
      | [] => [[c]]
      | w :: ws => (c :: w) :: ws

/-- Seed-query normalizer `cleanTitleForSearch`. -/
def cleanTitleForSearch (title : String) : String :=
  String.mk (List.intercalate [' ']
    ((splitOnSpaceExact (strTrim (stripBrackets title.data))).take 4))

/-- External calls and random choices of the main ratio-mix engine. -/
structure MainEnv where
  search : String → Except Unit SearchResult
  recommended : Except Unit SearchResult
  shufWatch : List Video → List Video
  shufSubs : List Channel → List Channel
  shufTrend : List Video → List Video
  shufPersonal : List Video → List Video
  shufFinal : List Video → List Video

/-- Personalized seed queries of the main engine. -/
def mainSeeds (env : MainEnv) (src : RecSource) : List String :=
  if src.watchHistory.length > 0 then
    ((env.shufWatch src.watchHistory).take 5).map
      (fun v => cleanTitleForSearch v.title ++ " related")
  else if src.subscribedChannels.length > 0 then
    ((env.shufSubs src.subscribedChannels).take 3).map (fun c => c.name ++ " videos")
  else ["Music", "Gaming", "Vlog"]

/-- Settled personalized candidate pool of the main engine. -/
def mainPersonalizedRaw (env : MainEnv) (src : RecSource) : List Video :=
  ((mainSeeds env src).map (fun q =>
    match env.search q with
    | .ok r => r.videos
    | .error _ => [])).flatten

/-- Settled trending pool of the main engine. -/
def mainTrendingRaw (env : MainEnv) : List Video :=
  match env.recommended with
  | .ok r => r.videos
  | .error _ => []

/-- One step of the main engine's `filterAndDedupe`: the id is recorded as
seen immediately after the duplicate check, before the exclusion checks. -/
def mainStep (ngKeywords ngChannelIds : List String) (neg : List (String × ℚ))
    (st : List String × List Video) (v : Video) : List String × List Video :=
  if st.1.contains v.id then st
  else
    let seen := v.id :: st.1
    if ngKeywordHit ngKeywords (mixFullText v) then (seen, st.2)
    else if ngChannelIds.contains v.channelId then (seen, st.2)
    else if 2 < negScore neg v then (seen, st.2)
    else (seen, st.2 ++ [v])

/-- The main engine's `filterAndDedupe`, threading the accumulated seen-id
set across pools. -/
def filterDedupeMain (ngKeywords ngChannelIds : List String)
    (neg : List (String × ℚ)) (seen : List String) (videos : List Video) :
    List String × List Video :=
  videos.foldl (mainStep ngKeywords ngChannelIds neg) (seen, [])

/-- Hidden-video ids, used to seed the main engine's seen-id set. -/
def mainSeen0 (src : RecSource) : List String :=
  src.hiddenVideos.map (fun h => h.id)

/-- NG-channel ids of the ratio-mix engines. -/
def ngChannelIdsOf (src : RecSource) : List String :=
  src.ngChannels.map (fun c => c.id)

/-- First filtering pass of the main engine (trending pool). -/
def mainFilter1 (env : MainEnv) (src : RecSource) : List String × List Video :=
  filterDedupeMain src.ngKeywords (ngChannelIdsOf src) src.negativeKeywords
    (mainSeen0 src) (mainTrendingRaw env)

/-- Second filtering pass of the main engine (personalized pool), continuing
from the first pass's seen-id set. -/
def mainFilter2 (env : MainEnv) (src : RecSource) : List String × List Video :=
  filterDedupeMain src.ngKeywords (ngChannelIdsOf src) src.negativeKeywords
    (mainFilter1 env src).1 (mainPersonalizedRaw env src)

/-- Trending quota `Math.floor(50 * 0.40)` (the double rounding of
`50 * 0.40` does not change the floor). -/
def mainNumTrending : Nat := 50 * 2 / 5

/-- Personalized quota `TARGET_COUNT - numTrending`. -/
def mainNumPersonalized : Nat := 50 - mainNumTrending

/-- Main ratio-mix feed: 40% trending / 60% personalized, each pool shuffled
and cut to its quota, concatenated and shuffled once more. -/
def getXraiRecsMix (env : MainEnv) (src : RecSource) : List Video :=
  env.shufFinal
    (((env.shufTrend (mainFilter1 env src).2).take mainNumTrending) ++
     ((env.shufPersonal (mainFilter2 env src).2).take mainNumPersonalized))

/-- External calls and random choices of the short-form engine; `pd` is the
`parseDuration` helper (code outside src/, abstracted as a parameter). -/
structure ShortsEnv where
  search : String → Except Unit SearchResult
  recommended : Except Unit SearchResult
  pd : Option String → String → Int
  shufHist : List Video → List Video
  shufWatch : List Video → List Video
  shufPop : List Video → List Video
  shufPersonal : List Video → List Video
  shufFinal : List Video → List Video
  shufFallback : List Video → List Video

/-- Short-video test: parsed duration in (0, 60] or a `#shorts` title tag. -/
def isShortVideo (pd : Option String → String → Int) (v : Video) : Bool :=
  let seconds := pd v.isoDuration v.duration
  (0 < seconds && seconds ≤ 60) || subInside "#shorts".data (strToLower v.title).data

/-- Shorts-history ids of the short-form engine. -/
def shortsHistoryIds (src : RecSource) : List String :=
  (src.shortsHistory.getD []).map (fun v => v.id)

/-- Short-form seeds when falling through to the watch history. -/
def shortsSeedsFromWatch (env : ShortsEnv) (src : RecSource) : List String :=
  if src.watchHistory.length > 0 then
    ((env.shufWatch src.watchHistory).take 4).map
      (fun v => cleanTitleForSearch v.title ++ " #shorts")
  else ["Funny #shorts", "Gaming #shorts"]

/-- Personalized seed queries of the short-form engine. -/
def shortsSeeds (env : ShortsEnv) (src : RecSource) : List String :=
  match src.shortsHistory with
  | some sh =>
    if sh.length > 0 then
      ((env.shufHist sh).take 4).map (fun v => cleanTitleForSearch v.title ++ " #shorts")
    else shortsSeedsFromWatch env src
  | none => shortsSeedsFromWatch env src

/-- Settled popular short-form pool (trending filtered to shorts). -/
def shortsPopularRaw (env : ShortsEnv) : List Video :=
  match env.recommended with
  | .ok r => r.videos.filter (isShortVideo env.pd)
  | .error _ => []

/-- Settled personalized short-form pool (per-seed search, the videos and
shorts lists concatenated, filtered to shorts). -/
def shortsPersonalizedRaw (env : ShortsEnv) (src : RecSource) : List Video :=
  ((shortsSeeds env src).map (fun q =>
    match env.search q with
    | .ok r => (r.videos ++ r.shorts).filter (isShortVideo env.pd)
    | .error _ => [])).flatten

/-- One step of the short-form `filterAndDedupe`: history/hidden/seen ids
and all exclusion checks reject without marking seen; only kept candidates
are marked seen. -/
def shortsStep (histIds hiddenIds ngChannelIds ngKeywords : List String)
    (neg : List (String × ℚ)) (st : List String × List Video) (v : Video) :
    List String × List Video :=
  if histIds.contains v.id || hiddenIds.contains v.id || st.1.contains v.id then st
  else if ngKeywordHit ngKeywords (mixFullText v) then st
  else if ngChannelIds.contains v.channelId then st
  else if 2 < negScore neg v then st
  else (v.id :: st.1, st.2 ++ [v])

/-- The short-form engine's `filterAndDedupe`. -/
def filterDedupeShorts (histIds hiddenIds ngChannelIds ngKeywords : List String)
    (neg : List (String × ℚ)) (seen : List String) (videos : List Video) :
    List String × List Video :=
  videos.foldl (shortsStep histIds hiddenIds ngChannelIds ngKeywords neg) (seen, [])

/-- Hidden-video ids of the short-form engine. -/
def shortsHiddenIds (src : RecSource) : List String :=
  src.hiddenVideos.map (fun h => h.id)

/-- First filtering pass of the short-form engine (popular pool). -/
def shortsFilter1 (env : ShortsEnv) (src : RecSource) : List String × List Video :=
  filterDedupeShorts (shortsHistoryIds src) (shortsHiddenIds src) (ngChannelIdsOf src)
    src.ngKeywords src.negativeKeywords [] (shortsPopularRaw env)

/-- Second filtering pass of the short-form engine (personalized pool). -/
def shortsFilter2 (env : ShortsEnv) (src : RecSource) : List String × List Video :=
  filterDedupeShorts (shortsHistoryIds src) (shortsHiddenIds src) (ngChannelIdsOf src)
    src.ngKeywords src.negativeKeywords (shortsFilter1 env src).1
    (shortsPersonalizedRaw env src)

/-- Popular quota `Math.floor(40 * 0.75)`. -/
def shortsNumPopular : Nat := 40 * 3 / 4

/-- The fully mixed short-form feed (75% popular / 25% personalized) before
the degenerate-fallback check. -/
def shortsMixed (env : ShortsEnv) (src : RecSource) : List Video :=
  ((env.shufPop (shortsFilter1 env src).2).take shortsNumPopular) ++
  ((env.shufPersonal (shortsFilter2 env src).2).take (40 - shortsNumPopular))

/-- Short-form feed: the mixed feed shuffled, or — when the mixed feed is
empty — a shuffled 20-item slice of the raw popular pool filtered only
against the shorts history. -/
def getXraiShorts (env : ShortsEnv) (src : RecSource) : List Video :=
  if (shortsMixed env src).length = 0 then
    (env.shufFallback ((shortsPopularRaw env).filter
      (fun v => !(shortsHistoryIds src).contains v.id))).take 20
  else env.shufFinal (shortsMixed env src)

/-! ## Profile-ranked engine fan-out (src/unnamed/part_000,
`getXraiRecommendations`) -/

/-- User-state snapshot of the profile-ranked engine. -/
structure XraiSource where
  searchHistory : List String
  watchHistory : List Video
  subscribedChannels : List Channel
  preferredGenres : List String
  preferredChannels : List String
  ngKeywords : List String
  ngChannels : List String
  page : Nat

/-- Catalog-service interface of the profile-ranked engine;
`videoDetails` yields the (possibly absent) related-videos list. -/
structure Catalog where
  videoDetails : String → Except Unit (Option (List Video))
  search : String → Except Unit SearchResult
  channelVideos : String → Except Unit SearchResult
  recommended : Except Unit SearchResult

/-- The fan-out call list, in issue order, each call's payload already
transformed by its `.then` slice: related-video walks (up to 3 sampled
recent watches, 15 each), interest searches (top-3 profile keywords, 10
each), subscription pulls (up to 5 sampled channels, 5 each), and a trending
fallback when fewer than 3 calls were issued.  `sortEntries` abstracts the
float-comparator sort of the profile entries. -/
noncomputable def xraiRawCalls (cat : Catalog)
    (shufHist : List Video → List Video) (shufSubs : List Channel → List Channel)
    (sortEntries : KwMap → KwMap) (src : XraiSource) :
    List (Except Unit (List Video)) :=
  let profile := buildUserProfile
    ⟨src.watchHistory, src.searchHistory, src.subscribedChannels⟩
  let sourceA :=
    if src.watchHistory.length > 0 then
      ((shufHist (src.watchHistory.take 5)).take 3).map
        (fun v => (cat.videoDetails v.id).map (fun rel => (rel.getD []).take 15))
    else []
  let topKeywords := ((sortEntries profile).take 3).map (fun p => p.1)
  let sourceB := topKeywords.map (fun kw => (cat.search kw).map (fun r => r.videos.take 10))
  let sourceC :=
    if src.subscribedChannels.length > 0 then
      ((shufSubs src.subscribedChannels).take 5).map
        (fun sub => (cat.channelVideos sub.id).map (fun r => r.videos.take 5))
    else []
  let base := sourceA ++ sourceB ++ sourceC
  if base.length < 3 then base ++ [cat.recommended.map (fun r => r.videos.take 20)]
  else base

/-- Fan-in: every call is settled (`.catch(() => [])`, then
`Promise.allSettled` — all outcomes fulfilled — concatenated in order). -/
noncomputable def xraiAllCandidates (cat : Catalog)
    (shufHist : List Video → List Video) (shufSubs : List Channel → List Channel)
    (sortEntries : KwMap → KwMap) (src : XraiSource) : List Video :=
  ((xraiRawCalls cat shufHist shufSubs sortEntries src).map settle).flatten

/-- The profile-ranked engine: build the profile, gather candidates, rank,
return the first 50. -/
noncomputable def getXraiRecsProfile (cat : Catalog)
    (shufHist : List Video → List Video) (shufSubs : List Channel → List Channel)
    (sortEntries : KwMap → KwMap)
    (sortScored : List (Video × ℝ) → List (Video × ℝ)) (src : XraiSource) :
    List Video :=
  (rankVideos sortScored (xraiAllCandidates cat shufHist shufSubs sortEntries src)
    (buildUserProfile ⟨src.watchHistory, src.searchHistory, src.subscribedChannels⟩)
    ⟨src.ngKeywords, src.ngChannels, src.watchHistory⟩).take 50

/-- Decimal digit string of a number, for stating the recency-parser claims. -/
def natChars (n : Nat) : List Char :=
  if n = 0 then ['0']
  else ((Nat.digits 10 n).reverse).map (fun d => Char.ofNat (48 + d))

/-- Decimal string of a number. -/
def natStr (n : Nat) : String :=
  String.mk (natChars n)

/-! ## Concrete scenario constants

Used by witnesses and counterexamples; the shuffles and sorts are
instantiated with the identity function, one of the permutations the
source's `Math.random` shuffle and float sort can produce. -/

/-- Video with the fields the engine reads; duration fields left empty. -/
def mkVideo (id title channelId channelName views uploadedAt : String) : Video :=
  ⟨id, title, channelId, channelName, views, uploadedAt, "", none, none⟩

/-- Profile of the C4 scoring scenario. -/
def c4Profile : KwMap := [("music", 5)]

/-- Candidate of the C4 scoring scenario. -/
def c4Video : Video := mkVideo "vid-c4" "music video" "chan-c4" "ch" "1,000,000" "2日前"

/-- Empty exclusion context. -/
def c4Ctx : ScoringContext := ⟨[], [], []⟩

/-- Video tagged three days ago. -/
def c5Video3 : Video := mkVideo "vid-a" "some title" "chan-a" "name" "10" "3日前"

/-- Video tagged forty days ago. -/
def c5Video40 : Video := mkVideo "vid-b" "some title" "chan-b" "name" "10" "40日前"

/-- Video tagged nine years ago (parsed age far beyond 60 days). -/
def c5VideoOld : Video := mkVideo "vid-c" "some title" "chan-c" "name" "10" "9年前"

/-- A short-form video whose id is hidden in `cxShortsSrc`. -/
def cxVideoH : Video := mkVideo "hid1" "funny cat #shorts" "chanA" "Alice" "100" "1日前"

/-- Short-form environment whose popular pool is exactly the hidden video. -/
def cxShortsEnv1 : ShortsEnv :=
  ⟨fun _ => Except.ok ⟨[], []⟩, Except.ok ⟨[cxVideoH], []⟩, fun _ _ => 0,
   id, id, id, id, id, id⟩

/-- User state hiding `cxVideoH` and nothing else. -/
def cxShortsSrc : RecSource := ⟨[], [], none, [], [], [], [⟨"hid1"⟩], [], 1⟩

/-- Short-form environment whose popular pool repeats the hidden video. -/
def cxShortsEnv2 : ShortsEnv :=
  ⟨fun _ => Except.ok ⟨[], []⟩, Except.ok ⟨[cxVideoH, cxVideoH], []⟩, fun _ _ => 0,
   id, id, id, id, id, id⟩

/-- Four distinct videos of one channel. -/
def cxSame1 : Video := mkVideo "same1" "tech talk alpha" "chanX" "Xavier" "10" "1日前"

/-- Second video of the same channel. -/
def cxSame2 : Video := mkVideo "same2" "tech talk beta" "chanX" "Xavier" "10" "1日前"

/-- Third video of the same channel. -/
def cxSame3 : Video := mkVideo "same3" "tech talk gamma" "chanX" "Xavier" "10" "1日前"

/-- Fourth video of the same channel. -/
def cxSame4 : Video := mkVideo "same4" "tech talk delta" "chanX" "Xavier" "10" "1日前"

/-- Main-feed environment whose trending pool is four same-channel videos. -/
def cxMainEnv : MainEnv :=
  ⟨fun _ => Except.ok ⟨[], []⟩, Except.ok ⟨[cxSame1, cxSame2, cxSame3, cxSame4], []⟩,
   id, id, id, id, id⟩

/-- User state with no history and no exclusions. -/
def cxMainSrc : RecSource := ⟨[], [], none, [], [], [], [], [], 1⟩

/-- An unobjectionable short-form video. -/
def cwVideoOk : Video := mkVideo "ok1" "nice dance #shorts" "chanB" "Bob" "50" "1日前"

/-- Short-form environment with a nonempty clean popular pool. -/
def cwShortsEnv : ShortsEnv :=
  ⟨fun _ => Except.ok ⟨[], []⟩, Except.ok ⟨[cwVideoOk], []⟩, fun _ _ => 0,
   id, id, id, id, id, id⟩

/-- Main-feed environment with one clean trending video. -/
def cwMainEnv : MainEnv :=
  ⟨fun _ => Except.ok ⟨[], []⟩, Except.ok ⟨[cwVideoOk], []⟩, id, id, id, id, id⟩

/-- Catalog whose trending call rejects and whose other calls return empty. -/
def c7Cat : Catalog :=
  ⟨fun _ => Except.ok none, fun _ => Except.ok ⟨[], []⟩,
   fun _ => Except.ok ⟨[], []⟩, Except.error ()⟩

/-- Cold-start user state for the profile-ranked engine. -/
def c7Src : XraiSource := ⟨[], [], [], [], [], [], [], 1⟩

/-- Negative-keyword map with a single penalized keyword. -/
def c8Neg : List (String × ℚ) := [("spam", 3)]

/-- Candidate whose aggregate penalty (3) exceeds the threshold 2. -/
def c8Video : Video := mkVideo "vid-c8" "spam content" "chan-c8" "someone" "10" "1日前"

/-- Candidate with zero penalty. -/
def c8VideoOk : Video := mkVideo "vid-c8b" "clean content" "chan-c8" "someone" "10" "1日前"

/-- A watched video. -/
def c10Hist : Video := mkVideo "w0" "history video" "chanH" "Hist Chan" "5" "2日前"

/-- A candidate sharing the watched video's id. -/
def c10Cand : Video := mkVideo "w0" "same id candidate" "chanC" "Cand Chan" "5" "1日前"

/-- A candidate with a fresh id. -/
def c10Fresh : Video := mkVideo "f1" "fresh one" "chanF" "Fresh Chan" "5" "1日前"

/-- Context whose watch history is `c10Hist`. -/
def c10Ctx : ScoringContext := ⟨[], [], [c10Hist]⟩

/-! ## Character-level lemmas -/

theorem lowerChar_toNat_of_upper (c : Char) (h1 : 65 ≤ c.toNat) (h2 : c.toNat ≤ 90) :
    (lowerChar c).toNat = c.toNat + 32 := by
  have hv : (c.toNat + 32).isValidChar := Or.inl (by omega)
  simp only [lowerChar]
  rw [if_pos (by simp [h1, h2])]
  unfold Char.ofNat
  rw [dif_pos hv]
  rfl

theorem lowerChar_eq_self (c : Char) (h : ¬(65 ≤ c.toNat ∧ c.toNat ≤ 90)) :
    lowerChar c = c := by
  simp only [lowerChar]
  rw [if_neg]
  simp only [Bool.and_eq_true, decide_eq_true_eq]
  omega

theorem lowerChar_idem (c : Char) : lowerChar (lowerChar c) = lowerChar c := by
  by_cases h : 65 ≤ c.toNat ∧ c.toNat ≤ 90
  · have ht := lowerChar_toNat_of_upper c h.1 h.2
    exact lowerChar_eq_self _ (by omega)
  · simp only [lowerChar_eq_self c h]

theorem isStripped_of_space (c : Char) (h : isSpaceChar c = true) :
    isStripped c = true := by
  simp only [isSpaceChar, Bool.or_eq_true, Bool.and_eq_true, decide_eq_true_eq,
    beq_iff_eq] at h
  simp only [isStripped, Bool.or_eq_true, Bool.and_eq_true, decide_eq_true_eq,
    beq_iff_eq]
  omega

/-! ## Substring lemmas -/

theorem leadsWith_mem_head (a : Char) (as l : List Char)
    (h : leadsWith (a :: as) l = true) : a ∈ l := by
  cases l with
  | nil => simp [leadsWith] at h
  | cons b bs =>
    simp only [leadsWith, Bool.and_eq_true, beq_iff_eq] at h
    simp [h.1]

theorem subInside_head_mem (a : Char) (as hay : List Char)
    (h : subInside (a :: as) hay = true) : a ∈ hay := by
  simp only [subInside, List.any_eq_true, List.mem_range] at h
  obtain ⟨i, _, hw⟩ := h
  exact (List.drop_subset i hay) (leadsWith_mem_head a as _ hw)

theorem subInside_not_of_head_not_mem (a : Char) (as hay : List Char)
    (h : a ∉ hay) : subInside (a :: as) hay = false := by
  by_contra hc
  exact h (subInside_head_mem a as hay (by revert hc; cases subInside (a :: as) hay <;> simp))

theorem leadsWith_self_append (xs ys : List Char) : leadsWith xs (xs ++ ys) = true := by
  induction xs with
  | nil => rfl
  | cons a as ih => simp [leadsWith, ih]

theorem subInside_of_append (needle xs ys : List Char) :
    subInside needle (xs ++ needle ++ ys) = true := by
  simp only [subInside, List.any_eq_true, List.mem_range]
  refine ⟨xs.length, by simp only [List.length_append]; omega, ?_⟩
  rw [List.append_assoc, List.drop_left]
  exact leadsWith_self_append needle ys

/-! ## takeWhile / dropWhile append lemmas -/

theorem takeWhile_all_append (p : Char → Bool) (l1 l2 : List Char)
    (h : ∀ a ∈ l1, p a = true) : (l1 ++ l2).takeWhile p = l1 ++ l2.takeWhile p := by
  induction l1 with
  | nil => rfl
  | cons a as ih =>
    simp only [List.cons_append, List.takeWhile_cons, h a (by simp), if_true]
    rw [ih (fun a ha => h a (by simp [ha]))]

theorem dropWhile_all_append (p : Char → Bool) (l1 l2 : List Char)
    (h : ∀ a ∈ l1, p a = true) : (l1 ++ l2).dropWhile p = l2.dropWhile p := by
  induction l1 with
  | nil => rfl
  | cons a as ih =>
    simp only [List.cons_append, List.dropWhile_cons, h a (by simp)]
    exact ih (fun a ha => h a (by simp [ha]))

theorem takeWhile_cons_false (p : Char → Bool) (a : Char) (l : List Char)
    (h : p a = false) : (a :: l).takeWhile p = [] := by
  simp [List.takeWhile_cons, h]

/-! ## Digit-string lemmas -/

theorem charsToNat_map_digit (ds : List Nat) (a : Nat) (hd : ∀ d ∈ ds, d < 10) :
    (ds.map (fun d => Char.ofNat (48 + d))).foldl (fun x c => x * 10 + (c.toNat - 48)) a
      = ds.foldl (fun x d => x * 10 + d) a := by
  induction ds generalizing a with
  | nil => rfl
  | cons d t ih =>
    have hv : (48 + d).isValidChar := Or.inl (by have := hd d (by simp); omega)
    have ht : (Char.ofNat (48 + d)).toNat = 48 + d := by
      unfold Char.ofNat
      rw [dif_pos hv]
      rfl
    simp only [List.map_cons, List.foldl_cons, ht]
    rw [show 48 + d - 48 = d by omega]
    exact ih _ (fun x hx => hd x (by simp [hx]))

theorem foldl_reverse_digits (l : List Nat) (a : Nat) :
    l.reverse.foldl (fun x d => x * 10 + d) a = a * 10 ^ l.length + Nat.ofDigits 10 l := by
  induction l generalizing a with
  | nil => simp [Nat.ofDigits]
  | cons d t ih =>
    simp only [List.reverse_cons, List.foldl_append, List.foldl_cons, List.foldl_nil,
      Nat.ofDigits_cons, List.length_cons, ih]
    ring

theorem charsToNat_natChars (n : Nat) : charsToNat (natChars n) = n := by
  by_cases h : n = 0
  · subst h; rfl
  · unfold natChars charsToNat
    rw [if_neg h]
    rw [charsToNat_map_digit _ 0 (fun d hd => Nat.digits_lt_base (by norm_num) (by simpa using hd))]
    rw [foldl_reverse_digits]
    simp [Nat.ofDigits_digits]

theorem natChars_digit (n : Nat) (c : Char) (h : c ∈ natChars n) :
    isDigitChar c = true := by
  unfold natChars at h
  by_cases h0 : n = 0
  · rw [if_pos h0] at h
    simp at h
    subst h
    rfl
  · rw [if_neg h0] at h
    simp only [List.mem_map, List.mem_reverse] at h
    obtain ⟨d, hd, hc⟩ := h
    have hlt : d < 10 := Nat.digits_lt_base (by norm_num) hd
    have hv : (48 + d).isValidChar := Or.inl (by omega)
    have ht : (Char.ofNat (48 + d)).toNat = 48 + d := by
      unfold Char.ofNat
      rw [dif_pos hv]
      rfl
    subst hc
    simp only [isDigitChar, ht, Bool.and_eq_true, decide_eq_true_eq]
    omega

theorem natChars_ne_nil (n : Nat) : natChars n ≠ [] := by
  unfold natChars
  by_cases h0 : n = 0
  · simp [h0]
  · rw [if_neg h0]
    simp only [ne_eq, List.map_eq_nil_iff, List.reverse_eq_nil_iff]
    exact Nat.digits_ne_nil_iff_ne_zero.mpr h0

theorem lowerChar_of_digit (c : Char) (h : isDigitChar c = true) : lowerChar c = c := by
  simp only [isDigitChar, Bool.and_eq_true, decide_eq_true_eq] at h
  exact lowerChar_eq_self c (by omega)

theorem firstNumber_digits_front (ds rest : List Char) (hne : ds ≠ [])
    (hd : ∀ c ∈ ds, isDigitChar c = true)
    (hr : ∀ c ∈ rest, isDigitChar c = false) :
    firstNumber (ds ++ rest) = some (charsToNat ds) := by
  cases ds with
  | nil => exact absurd rfl hne
  | cons c t =>
    simp only [List.cons_append, firstNumber, hd c (by simp), if_pos]
    congr 1
    rw [show (t.append rest) = t ++ rest from rfl]
    rw [takeWhile_all_append isDigitChar t rest (fun a ha => hd a (by simp [ha]))]
    cases rest with
    | nil => simp
    | cons r rs =>
      rw [takeWhile_cons_false isDigitChar r rs (hr r (by simp))]
      simp

/-! ## Recency-parser lemmas -/

theorem subInside_append_self (needle xs : List Char) :
    subInside needle (xs ++ needle) = true := by
  have h := subInside_of_append needle xs []
  simpa using h

theorem not_mem_natChars_append (a : Char) (n : Nat) (u : List Char)
    (ha : isDigitChar a = false) (hu : a ∉ u) : a ∉ natChars n ++ u := by
  intro hmem
  rcases List.mem_append.mp hmem with h | h
  · rw [natChars_digit n a h] at ha
    exact absurd ha (by simp)
  · exact hu h

theorem natStr_append_data (n : Nat) (u : String) :
    (natStr n ++ u).data = natChars n ++ u.data := rfl

theorem natStr_append_ne_empty (n : Nat) (u : String) : natStr n ++ u ≠ "" := by
  intro h
  have hd : (natStr n ++ u).data = [] := by rw [h]
  rw [natStr_append_data] at hd
  exact natChars_ne_nil n (List.append_eq_nil.mp hd).1

theorem map_lower_natStr_append (n : Nat) (u : String)
    (hu : ∀ c ∈ u.data, lowerChar c = c) :
    (natStr n ++ u).data.map lowerChar = natChars n ++ u.data := by
  rw [natStr_append_data, List.map_append]
  congr 1
  · have h := List.map_congr_left (fun c hc => lowerChar_of_digit c (natChars_digit n c hc))
    simpa using h
  · have h := List.map_congr_left hu
    simpa using h

theorem firstNumber_natChars_unit (n : Nat) (u : List Char)
    (hu : ∀ c ∈ u, isDigitChar c = false) :
    firstNumber (natChars n ++ u) = some n := by
  rw [firstNumber_digits_front (natChars n) u (natChars_ne_nil n) (natChars_digit n) hu]
  rw [charsToNat_natChars]

theorem parseUploadedAt_minutes (n : Nat) : parseUploadedAt (natStr n ++ "分前") = 0 := by
  have hlow : ∀ c ∈ "分前".data, lowerChar c = c := by decide
  have e1 : subInside "分前".data (natChars n ++ "分前".data) = true := subInside_append_self _ _
  unfold parseUploadedAt
  rw [if_neg (natStr_append_ne_empty n _), map_lower_natStr_append n _ hlow]
  simp [parseUploadedAtCore, e1]

theorem parseUploadedAt_hours (n : Nat) : parseUploadedAt (natStr n ++ "時間前") = 0 := by
  have hlow : ∀ c ∈ "時間前".data, lowerChar c = c := by decide
  have e1 : subInside "時間前".data (natChars n ++ "時間前".data) = true := subInside_append_self _ _
  unfold parseUploadedAt
  rw [if_neg (natStr_append_ne_empty n _), map_lower_natStr_append n _ hlow]
  simp [parseUploadedAtCore, e1]

theorem parseUploadedAt_days (n : Nat) : parseUploadedAt (natStr n ++ "日前") = n := by
  have hlow : ∀ c ∈ "日前".data, lowerChar c = c := by decide
  have hdig : ∀ c ∈ "日前".data, isDigitChar c = false := by decide
  have e1 : subInside "分前".data (natChars n ++ "日前".data) = false := by
    rw [show "分前".data = '分' :: "前".data from rfl]
    exact subInside_not_of_head_not_mem _ _ _ (not_mem_natChars_append _ n _ (by decide) (by decide))
  have e2 : subInside "時間前".data (natChars n ++ "日前".data) = false := by
    rw [show "時間前".data = '時' :: "間前".data from rfl]
    exact subInside_not_of_head_not_mem _ _ _ (not_mem_natChars_append _ n _ (by decide) (by decide))
  have e3 : subInside "日前".data (natChars n ++ "日前".data) = true := subInside_append_self _ _
  unfold parseUploadedAt
  rw [if_neg (natStr_append_ne_empty n _), map_lower_natStr_append n _ hlow]
  simp [parseUploadedAtCore, e1, e2, e3, firstNumber_natChars_unit n _ hdig]

theorem parseUploadedAt_weeks (n : Nat) : parseUploadedAt (natStr n ++ "週間前") = n * 7 := by
  have hlow : ∀ c ∈ "週間前".data, lowerChar c = c := by decide
  have hdig : ∀ c ∈ "週間前".data, isDigitChar c = false := by decide
  have e1 : subInside "分前".data (natChars n ++ "週間前".data) = false := by
    rw [show "分前".data = '分' :: "前".data from rfl]
    exact subInside_not_of_head_not_mem _ _ _ (not_mem_natChars_append _ n _ (by decide) (by decide))
  have e2 : subInside "時間前".data (natChars n ++ "週間前".data) = false := by
    rw [show "時間前".data = '時' :: "間前".data from rfl]
    exact subInside_not_of_head_not_mem _ _ _ (not_mem_natChars_append _ n _ (by decide) (by decide))
  have e3 : subInside "日前".data (natChars n ++ "週間前".data) = false := by
    rw [show "日前".data = '日' :: "前".data from rfl]
    exact subInside_not_of_head_not_mem _ _ _ (not_mem_natChars_append _ n _ (by decide) (by decide))
  have e4 : subInside "週間前".data (natChars n ++ "週間前".data) = true := subInside_append_self _ _
  unfold parseUploadedAt
  rw [if_neg (natStr_append_ne_empty n _), map_lower_natStr_append n _ hlow]
  simp [parseUploadedAtCore, e1, e2, e3, e4, firstNumber_natChars_unit n _ hdig]

theorem parseUploadedAt_months (n : Nat) : parseUploadedAt (natStr n ++ "か月前") = n * 30 := by
  have hlow : ∀ c ∈ "か月前".data, lowerChar c = c := by decide
  have hdig : ∀ c ∈ "か月前".data, isDigitChar c = false := by decide
  have e1 : subInside "分前".data (natChars n ++ "か月前".data) = false := by
    rw [show "分前".data = '分' :: "前".data from rfl]
    exact subInside_not_of_head_not_mem _ _ _ (not_mem_natChars_append _ n _ (by decide) (by decide))
  have e2 : subInside "時間前".data (natChars n ++ "か月前".data) = false := by
    rw [show "時間前".data = '時' :: "間前".data from rfl]
    exact subInside_not_of_head_not_mem _ _ _ (not_mem_natChars_append _ n _ (by decide) (by decide))
  have e3 : subInside "日前".data (natChars n ++ "か月前".data) = false := by
    rw [show "日前".data = '日' :: "前".data from rfl]
    exact subInside_not_of_head_not_mem _ _ _ (not_mem_natChars_append _ n _ (by decide) (by decide))
  have e4 : subInside "週間前".data (natChars n ++ "か月前".data) = false := by
    rw [show "週間前".data = '週' :: "間前".data from rfl]
    exact subInside_not_of_head_not_mem _ _ _ (not_mem_natChars_append _ n _ (by decide) (by decide))
  have e5 : subInside "か月前".data (natChars n ++ "か月前".data) = true := subInside_append_self _ _
  unfold parseUploadedAt
  rw [if_neg (natStr_append_ne_empty n _), map_lower_natStr_append n _ hlow]
  simp [parseUploadedAtCore, e1, e2, e3, e4, e5, firstNumber_natChars_unit n _ hdig]

theorem parseUploadedAt_years (n : Nat) : parseUploadedAt (natStr n ++ "年前") = n * 365 := by
  have hlow : ∀ c ∈ "年前".data, lowerChar c = c := by decide
  have hdig : ∀ c ∈ "年前".data, isDigitChar c = false := by decide
  have e1 : subInside "分前".data (natChars n ++ "年前".data) = false := by
    rw [show "分前".data = '分' :: "前".data from rfl]
    exact subInside_not_of_head_not_mem _ _ _ (not_mem_natChars_append _ n _ (by decide) (by decide))
  have e2 : subInside "時間前".data (natChars n ++ "年前".data) = false := by
    rw [show "時間前".data = '時' :: "間前".data from rfl]
    exact subInside_not_of_head_not_mem _ _ _ (not_mem_natChars_append _ n _ (by decide) (by decide))
  have e3 : subInside "日前".data (natChars n ++ "年前".data) = false := by
    rw [show "日前".data = '日' :: "前".data from rfl]
    exact subInside_not_of_head_not_mem _ _ _ (not_mem_natChars_append _ n _ (by decide) (by decide))
  have e4 : subInside "週間前".data (natChars n ++ "年前".data) = false := by
    rw [show "週間前".data = '週' :: "間前".data from rfl]
    exact subInside_not_of_head_not_mem _ _ _ (not_mem_natChars_append _ n _ (by decide) (by decide))
  have e5 : subInside "か月前".data (natChars n ++ "年前".data) = false := by
    rw [show "か月前".data = 'か' :: "月前".data from rfl]
    exact subInside_not_of_head_not_mem _ _ _ (not_mem_natChars_append _ n _ (by decide) (by decide))
  have e6 : subInside "年前".data (natChars n ++ "年前".data) = true := subInside_append_self _ _
  unfold parseUploadedAt
  rw [if_neg (natStr_append_ne_empty n _), map_lower_natStr_append n _ hlow]
  simp [parseUploadedAtCore, e1, e2, e3, e4, e5, e6, firstNumber_natChars_unit n _ hdig]

theorem parseUploadedAt_unparseable (s : String) (hne : s ≠ "")
    (h : ∀ u ∈ ["分前", "時間前", "日前", "週間前", "か月前", "年前"],
      subInside u.data (s.data.map lowerChar) = false) :
    parseUploadedAt s = 999 := by
  unfold parseUploadedAt
  rw [if_neg hne]
  have h1 := h "分前" (by simp)
  have h2 := h "時間前" (by simp)
  have h3 := h "日前" (by simp)
  have h4 := h "週間前" (by simp)
  have h5 := h "か月前" (by simp)
  have h6 := h "年前" (by simp)
  simp [parseUploadedAtCore, h1, h2, h3, h4, h5, h6]

theorem freshness_days_mono : freshnessScoreOfDays 40 < freshnessScoreOfDays 3 := by
  unfold freshnessScoreOfDays
  rw [max_eq_right (by norm_num : (0:ℝ) ≤ 1 - (40:ℕ) / 60)]
  rw [max_eq_right (by norm_num : (0:ℝ) ≤ 1 - (3:ℕ) / 60)]
  norm_num

theorem freshness_nonpos_of_old (d : Nat) (h : 60 < d) : freshnessScoreOfDays d ≤ 0 := by
  unfold freshnessScoreOfDays
  rw [max_eq_left]
  · norm_num
  · have hd : (60:ℝ) < (d:ℝ) := by exact_mod_cast h
    have h2 : (1:ℝ) < (d:ℝ) / 60 := by
      rw [lt_div_iff₀ (by norm_num : (0:ℝ) < 60)]
      linarith
    linarith

/-! ## Filter invariants (main ratio-mix engine) -/

theorem strContains_iff_mem (l : List String) (a : String) :
    l.contains a = true ↔ a ∈ l := by
  simp [List.contains]

theorem strContains_false_iff (l : List String) (a : String) :
    l.contains a = false ↔ a ∉ l := by
  rw [← strContains_iff_mem]
  cases l.contains a <;> simp

theorem mainStep_seen_grows (ngk ngc : List String) (neg : List (String × ℚ))
    (st : List String × List Video) (v : Video) :
    ∀ x ∈ st.1, x ∈ (mainStep ngk ngc neg st v).1 := by
  intro x hx
  unfold mainStep
  split_ifs <;> simp [hx]

theorem mainStep_kept (ngk ngc : List String) (neg : List (String × ℚ))
    (st : List String × List Video) (v : Video) :
    ∀ w ∈ (mainStep ngk ngc neg st v).2,
      w ∈ st.2 ∨ (w = v ∧ v.id ∉ st.1 ∧ ngKeywordHit ngk (mixFullText v) = false ∧
        ngc.contains v.channelId = false ∧ ¬(2 < negScore neg v)) := by
  intro w hw
  unfold mainStep at hw
  split_ifs at hw with h1 h2 h3 h4
  · exact Or.inl hw
  · exact Or.inl hw
  · exact Or.inl hw
  · exact Or.inl hw
  · simp only [List.mem_append, List.mem_singleton] at hw
    rcases hw with hw | hw
    · exact Or.inl hw
    · refine Or.inr ⟨hw, ?_, ?_, ?_, h4⟩
      · rw [← strContains_false_iff]
        cases hc : st.1.contains v.id
        · rfl
        · exact absurd hc h1
      · cases hc : ngKeywordHit ngk (mixFullText v)
        · rfl
        · exact absurd hc h2
      · cases hc : ngc.contains v.channelId
        · rfl
        · exact absurd hc h3

theorem mainStep_ids_recorded (ngk ngc : List String) (neg : List (String × ℚ))
    (st : List String × List Video) (v : Video)
    (h : ∀ w ∈ st.2, w.id ∈ st.1) :
    ∀ w ∈ (mainStep ngk ngc neg st v).2, w.id ∈ (mainStep ngk ngc neg st v).1 := by
  intro w hw
  unfold mainStep at hw ⊢
  split_ifs at hw ⊢ with h1 h2 h3 h4
  · exact h w hw
  · exact List.mem_cons_of_mem _ (h w hw)
  · exact List.mem_cons_of_mem _ (h w hw)
  · exact List.mem_cons_of_mem _ (h w hw)
  · simp only [List.mem_append, List.mem_singleton] at hw
    rcases hw with hw | hw
    · exact List.mem_cons_of_mem _ (h w hw)
    · subst hw
      exact List.mem_cons_self _ _

theorem mainStep_nodup (ngk ngc : List String) (neg : List (String × ℚ))
    (st : List String × List Video) (v : Video)
    (hn : (st.2.map (fun w => w.id)).Nodup) (h : ∀ w ∈ st.2, w.id ∈ st.1) :
    ((mainStep ngk ngc neg st v).2.map (fun w => w.id)).Nodup := by
  unfold mainStep
  split_ifs with h1 h2 h3 h4
  · exact hn
  · exact hn
  · exact hn
  · exact hn
  · simp only [List.map_append, List.map_cons, List.map_nil]
    rw [List.nodup_append]
    refine ⟨hn, by simp, ?_⟩
    intro x hx
    simp only [List.mem_map] at hx
    obtain ⟨w, hw, hwx⟩ := hx
    simp only [List.mem_singleton]
    intro hxv
    apply h1
    rw [strContains_iff_mem]
    subst hxv
    rw [← hwx]
    exact h w hw

theorem mainFold_inv (ngk ngc : List String) (neg : List (String × ℚ))
    (videos : List Video) :
    ∀ st : List String × List Video,
    (∀ x ∈ st.1, x ∈ (videos.foldl (mainStep ngk ngc neg) st).1) ∧
    (∀ w ∈ (videos.foldl (mainStep ngk ngc neg) st).2,
       w ∈ st.2 ∨ (w.id ∉ st.1 ∧ ngKeywordHit ngk (mixFullText w) = false ∧
         ngc.contains w.channelId = false ∧ ¬(2 < negScore neg w))) ∧
    ((st.2.map (fun w => w.id)).Nodup → (∀ w ∈ st.2, w.id ∈ st.1) →
       ((videos.foldl (mainStep ngk ngc neg) st).2.map (fun w => w.id)).Nodup ∧
       (∀ w ∈ (videos.foldl (mainStep ngk ngc neg) st).2,
          w.id ∈ (videos.foldl (mainStep ngk ngc neg) st).1)) := by
  induction videos with
  | nil =>
    intro st
    exact ⟨fun x hx => hx, fun w hw => Or.inl hw, fun hn h => ⟨hn, h⟩⟩
  | cons v rest ih =>
    intro st
    simp only [List.foldl_cons]
    obtain ⟨ihA, ihB, ihC⟩ := ih (mainStep ngk ngc neg st v)
    refine ⟨?_, ?_, ?_⟩
    · intro x hx
      exact ihA x (mainStep_seen_grows ngk ngc neg st v x hx)
    · intro w hw
      rcases ihB w hw with hmem | hnew
      · rcases mainStep_kept ngk ngc neg st v w hmem with hold | hnew2
        · exact Or.inl hold
        · obtain ⟨hwv, hni, hk, hc, hneg⟩ := hnew2
          subst hwv
          exact Or.inr ⟨hni, hk, hc, hneg⟩
      · obtain ⟨hni, hk, hc, hneg⟩ := hnew
        refine Or.inr ⟨fun hmem1 => hni (mainStep_seen_grows ngk ngc neg st v _ hmem1), hk, hc, hneg⟩
    · intro hn h
      exact ihC (mainStep_nodup ngk ngc neg st v hn h)
        (mainStep_ids_recorded ngk ngc neg st v h)

/-! ## Filter invariants (short-form engine) -/

theorem shortsStep_seen_grows (histIds hiddenIds ngc ngk : List String)
    (neg : List (String × ℚ)) (st : List String × List Video) (v : Video) :
    ∀ x ∈ st.1, x ∈ (shortsStep histIds hiddenIds ngc ngk neg st v).1 := by
  intro x hx
  unfold shortsStep
  split_ifs <;> simp [hx]

theorem shortsStep_kept (histIds hiddenIds ngc ngk : List String)
    (neg : List (String × ℚ)) (st : List String × List Video) (v : Video) :
    ∀ w ∈ (shortsStep histIds hiddenIds ngc ngk neg st v).2,
      w ∈ st.2 ∨ (w = v ∧ v.id ∉ histIds ∧ v.id ∉ hiddenIds ∧ v.id ∉ st.1 ∧
        ngKeywordHit ngk (mixFullText v) = false ∧
        ngc.contains v.channelId = false ∧ ¬(2 < negScore neg v)) := by
  intro w hw
  unfold shortsStep at hw
  split_ifs at hw with h1 h2 h3 h4
  · exact Or.inl hw
  · exact Or.inl hw
  · exact Or.inl hw
  · exact Or.inl hw
  · simp only [List.mem_append, List.mem_singleton] at hw
    rcases hw with hw | hw
    · exact Or.inl hw
    · have h1' : histIds.contains v.id = false ∧ hiddenIds.contains v.id = false ∧
          st.1.contains v.id = false := by
        revert h1
        cases histIds.contains v.id <;> cases hiddenIds.contains v.id <;>
          cases st.1.contains v.id <;> simp
      refine Or.inr ⟨hw, ?_, ?_, ?_, ?_, ?_, h4⟩
      · exact (strContains_false_iff _ _).mp h1'.1
      · exact (strContains_false_iff _ _).mp h1'.2.1
      · exact (strContains_false_iff _ _).mp h1'.2.2
      · cases hc : ngKeywordHit ngk (mixFullText v)
        · rfl
        · exact absurd hc h2
      · cases hc : ngc.contains v.channelId
        · rfl
        · exact absurd hc h3

theorem shortsStep_ids_recorded (histIds hiddenIds ngc ngk : List String)
    (neg : List (String × ℚ)) (st : List String × List Video) (v : Video)
    (h : ∀ w ∈ st.2, w.id ∈ st.1) :
    ∀ w ∈ (shortsStep histIds hiddenIds ngc ngk neg st v).2,
      w.id ∈ (shortsStep histIds hiddenIds ngc ngk neg st v).1 := by
  intro w hw
  unfold shortsStep at hw ⊢
  split_ifs at hw ⊢ with h1 h2 h3 h4
  · exact h w hw
  · exact h w hw
  · exact h w hw
  · exact h w hw
  · simp only [List.mem_append, List.mem_singleton] at hw
    rcases hw with hw | hw
    · exact List.mem_cons_of_mem _ (h w hw)
    · subst hw
      exact List.mem_cons_self _ _

theorem shortsStep_nodup (histIds hiddenIds ngc ngk : List String)
    (neg : List (String × ℚ)) (st : List String × List Video) (v : Video)
    (hn : (st.2.map (fun w => w.id)).Nodup) (h : ∀ w ∈ st.2, w.id ∈ st.1) :
    ((shortsStep histIds hiddenIds ngc ngk neg st v).2.map (fun w => w.id)).Nodup := by
  unfold shortsStep
  split_ifs with h1 h2 h3 h4
  · exact hn
  · exact hn
  · exact hn
  · exact hn
  · simp only [List.map_append, List.map_cons, List.map_nil]
    rw [List.nodup_append]
    refine ⟨hn, by simp, ?_⟩
    intro x hx
    simp only [List.mem_map] at hx
    obtain ⟨w, hw, hwx⟩ := hx
    simp only [List.mem_singleton]
    intro hxv
    have h1' : st.1.contains v.id = false := by
      revert h1
      cases histIds.contains v.id <;> cases hiddenIds.contains v.id <;>
        cases st.1.contains v.id <;> simp
    have : v.id ∉ st.1 := (strContains_false_iff _ _).mp h1'
    apply this
    subst hxv
    rw [← hwx]
    exact h w hw

theorem shortsFold_inv (histIds hiddenIds ngc ngk : List String)
    (neg : List (String × ℚ)) (videos : List Video) :
    ∀ st : List String × List Video,
    (∀ x ∈ st.1, x ∈ (videos.foldl (shortsStep histIds hiddenIds ngc ngk neg) st).1) ∧
    (∀ w ∈ (videos.foldl (shortsStep histIds hiddenIds ngc ngk neg) st).2,
       w ∈ st.2 ∨ (w.id ∉ histIds ∧ w.id ∉ hiddenIds ∧ w.id ∉ st.1 ∧
         ngKeywordHit ngk (mixFullText w) = false ∧
         ngc.contains w.channelId = false ∧ ¬(2 < negScore neg w))) ∧
    ((st.2.map (fun w => w.id)).Nodup → (∀ w ∈ st.2, w.id ∈ st.1) →
       ((videos.foldl (shortsStep histIds hiddenIds ngc ngk neg) st).2.map
          (fun w => w.id)).Nodup ∧
       (∀ w ∈ (videos.foldl (shortsStep histIds hiddenIds ngc ngk neg) st).2,
          w.id ∈ (videos.foldl (shortsStep histIds hiddenIds ngc ngk neg) st).1)) := by
  induction videos with
  | nil =>
    intro st
    exact ⟨fun x hx => hx, fun w hw => Or.inl hw, fun hn h => ⟨hn, h⟩⟩
  | cons v rest ih =>
    intro st
    simp only [List.foldl_cons]
    obtain ⟨ihA, ihB, ihC⟩ := ih (shortsStep histIds hiddenIds ngc ngk neg st v)
    refine ⟨?_, ?_, ?_⟩
    · intro x hx
      exact ihA x (shortsStep_seen_grows histIds hiddenIds ngc ngk neg st v x hx)
    · intro w hw
      rcases ihB w hw with hmem | hnew
      · rcases shortsStep_kept histIds hiddenIds ngc ngk neg st v w hmem with hold | hnew2
        · exact Or.inl hold
        · obtain ⟨hwv, hh, hhid, hni, hk, hc, hneg⟩ := hnew2
          subst hwv
          exact Or.inr ⟨hh, hhid, hni, hk, hc, hneg⟩
      · obtain ⟨hh, hhid, hni, hk, hc, hneg⟩ := hnew
        exact Or.inr ⟨hh, hhid,
          fun hmem1 => hni (shortsStep_seen_grows histIds hiddenIds ngc ngk neg st v _ hmem1),
          hk, hc, hneg⟩
    · intro hn h
      exact ihC (shortsStep_nodup histIds hiddenIds ngc ngk neg st v hn h)
        (shortsStep_ids_recorded histIds hiddenIds ngc ngk neg st v h)

/-! ## Scoring-pass and diversifier invariants -/

theorem scoreStep_seen_grows (profile : KwMap) (ctx : ScoringContext)
    (st : List String × List (Video × ℝ)) (v : Video) :
    ∀ x ∈ st.1, x ∈ (scoreStep profile ctx st v).1 := by
  intro x hx
  unfold scoreStep
  split_ifs <;> simp [hx]

theorem scoreStep_kept (profile : KwMap) (ctx : ScoringContext)
    (st : List String × List (Video × ℝ)) (v : Video) :
    ∀ p ∈ (scoreStep profile ctx st v).2,
      p ∈ st.2 ∨ (p = (v, scoreVideo profile v) ∧ v.id ∉ st.1) := by
  intro p hp
  unfold scoreStep at hp
  split_ifs at hp with h1 h2 h3
  · exact Or.inl hp
  · exact Or.inl hp
  · exact Or.inl hp
  · simp only [List.mem_append, List.mem_singleton] at hp
    rcases hp with hp | hp
    · exact Or.inl hp
    · refine Or.inr ⟨hp, ?_⟩
      rw [← strContains_false_iff]
      revert h1
      cases hi : st.1.contains v.id <;> simp

theorem scoreStep_ids_recorded (profile : KwMap) (ctx : ScoringContext)
    (st : List String × List (Video × ℝ)) (v : Video)
    (h : ∀ p ∈ st.2, p.1.id ∈ st.1) :
    ∀ p ∈ (scoreStep profile ctx st v).2, p.1.id ∈ (scoreStep profile ctx st v).1 := by
  intro p hp
  unfold scoreStep at hp ⊢
  split_ifs at hp ⊢ with h1 h2 h3
  · exact h p hp
  · exact h p hp
  · exact h p hp
  · simp only [List.mem_append, List.mem_singleton] at hp
    rcases hp with hp | hp
    · exact List.mem_cons_of_mem _ (h p hp)
    · subst hp
      exact List.mem_cons_self _ _

theorem scoreStep_nodup (profile : KwMap) (ctx : ScoringContext)
    (st : List String × List (Video × ℝ)) (v : Video)
    (hn : (st.2.map (fun p => p.1.id)).Nodup) (h : ∀ p ∈ st.2, p.1.id ∈ st.1) :
    ((scoreStep profile ctx st v).2.map (fun p => p.1.id)).Nodup := by
  unfold scoreStep
  split_ifs with h1 h2 h3
  · exact hn
  · exact hn
  · exact hn
  · simp only [List.map_append, List.map_cons, List.map_nil]
    rw [List.nodup_append]
    refine ⟨hn, by simp, ?_⟩
    intro x hx
    simp only [List.mem_map] at hx
    obtain ⟨p, hp, hpx⟩ := hx
    simp only [List.mem_singleton]
    intro hxv
    have h1' : st.1.contains v.id = false := by
      revert h1
      cases hi : st.1.contains v.id <;> simp
    apply (strContains_false_iff _ _).mp h1'
    subst hxv
    rw [← hpx]
    exact h p hp

theorem scoreFold_inv (profile : KwMap) (ctx : ScoringContext) (videos : List Video) :
    ∀ st : List String × List (Video × ℝ),
    (∀ x ∈ st.1, x ∈ (videos.foldl (scoreStep profile ctx) st).1) ∧
    (∀ p ∈ (videos.foldl (scoreStep profile ctx) st).2,
       p ∈ st.2 ∨ (p.2 = scoreVideo profile p.1 ∧ p.1.id ∉ st.1)) ∧
    ((st.2.map (fun p => p.1.id)).Nodup → (∀ p ∈ st.2, p.1.id ∈ st.1) →
       ((videos.foldl (scoreStep profile ctx) st).2.map (fun p => p.1.id)).Nodup ∧
       (∀ p ∈ (videos.foldl (scoreStep profile ctx) st).2,
          p.1.id ∈ (videos.foldl (scoreStep profile ctx) st).1)) := by
  induction videos with
  | nil =>
    intro st
    exact ⟨fun x hx => hx, fun p hp => Or.inl hp, fun hn h => ⟨hn, h⟩⟩
  | cons v rest ih =>
    intro st
    simp only [List.foldl_cons]
    obtain ⟨ihA, ihB, ihC⟩ := ih (scoreStep profile ctx st v)
    refine ⟨?_, ?_, ?_⟩
    · intro x hx
      exact ihA x (scoreStep_seen_grows profile ctx st v x hx)
    · intro p hp
      rcases ihB p hp with hmem | hnew
      · rcases scoreStep_kept profile ctx st v p hmem with hold | hnew2
        · exact Or.inl hold
        · obtain ⟨hpv, hni⟩ := hnew2
          subst hpv
          exact Or.inr ⟨rfl, hni⟩
      · obtain ⟨hs, hni⟩ := hnew
        exact Or.inr ⟨hs, fun hmem1 => hni (scoreStep_seen_grows profile ctx st v _ hmem1)⟩
    · intro hn h
      exact ihC (scoreStep_nodup profile ctx st v hn h)
        (scoreStep_ids_recorded profile ctx st v h)

theorem scorePass_score (profile : KwMap) (ctx : ScoringContext) (videos : List Video) :
    ∀ p ∈ scorePass profile ctx videos, p.2 = scoreVideo profile p.1 := by
  intro p hp
  unfold scorePass at hp
  rcases (scoreFold_inv profile ctx videos _).2.1 p hp with h | h
  · simp at h
  · exact h.1

theorem scorePass_not_watched (profile : KwMap) (ctx : ScoringContext) (videos : List Video) :
    ∀ p ∈ scorePass profile ctx videos, ∀ w ∈ ctx.watchHistory, p.1.id ≠ w.id := by
  intro p hp w hw
  unfold scorePass at hp
  rcases (scoreFold_inv profile ctx videos _).2.1 p hp with h | h
  · simp at h
  · intro he
    exact h.2 (by rw [he]; exact List.mem_map_of_mem (fun v => v.id) hw)

theorem scorePass_nodup (profile : KwMap) (ctx : ScoringContext) (videos : List Video) :
    ((scorePass profile ctx videos).map (fun p => p.1.id)).Nodup := by
  unfold scorePass
  exact ((scoreFold_inv profile ctx videos _).2.2 (by simp) (by simp)).1

theorem divFold_tail (cap : Nat) (scored : List (Video × ℝ)) :
    ∀ st : List Video × (String → Nat),
      ∃ r : List Video,
        (scored.foldl
          (fun (st : List Video × (String → Nat)) p =>
            if st.2 p.1.channelId < cap then
              (st.1 ++ [p.1], fun c => if c == p.1.channelId then st.2 c + 1 else st.2 c)
            else st) st).1 = st.1 ++ r ∧ r.Sublist (scored.map (fun p => p.1)) := by
  induction scored with
  | nil =>
    intro st
    exact ⟨[], by simp, by simp⟩
  | cons p rest ih =>
    intro st
    simp only [List.foldl_cons, List.map_cons]
    by_cases hc : st.2 p.1.channelId < cap
    · rw [if_pos hc]
      obtain ⟨r, hr, hs⟩ := ih (st.1 ++ [p.1],
        fun c => if c == p.1.channelId then st.2 c + 1 else st.2 c)
      refine ⟨p.1 :: r, ?_, List.Sublist.cons₂ _ hs⟩
      rw [hr]
      simp
    · rw [if_neg hc]
      obtain ⟨r, hr, hs⟩ := ih st
      exact ⟨r, hr, List.Sublist.cons _ hs⟩

theorem diversify_sublist (cap : Nat) (scored : List (Video × ℝ)) :
    (diversify cap scored).Sublist (scored.map (fun p => p.1)) := by
  unfold diversify
  obtain ⟨r, hr, hs⟩ := divFold_tail cap scored ([], fun _ => 0)
  rw [hr]
  simpa using hs

theorem divFold_count (cap : Nat) (scored : List (Video × ℝ)) (ch : String) :
    ∀ st : List Video × (String → Nat),
      st.2 ch = (st.1.filter (fun v => v.channelId == ch)).length →
      st.2 ch ≤ cap →
      ((scored.foldl
          (fun (st : List Video × (String → Nat)) p =>
            if st.2 p.1.channelId < cap then
              (st.1 ++ [p.1], fun c => if c == p.1.channelId then st.2 c + 1 else st.2 c)
            else st) st).1.filter (fun v => v.channelId == ch)).length ≤ cap := by
  induction scored with
  | nil =>
    intro st he hb
    simp only [List.foldl_nil]
    rw [← he]
    exact hb
  | cons p rest ih =>
    intro st he hb
    simp only [List.foldl_cons]
    by_cases hc : st.2 p.1.channelId < cap
    · rw [if_pos hc]
      by_cases hcc : p.1.channelId = ch
      · subst hcc
        apply ih
        · show (if (p.1.channelId == p.1.channelId) = true then st.2 p.1.channelId + 1
                else st.2 p.1.channelId)
            = ((st.1 ++ [p.1]).filter (fun v => v.channelId == p.1.channelId)).length
          rw [if_pos (by simp), List.filter_append, List.length_append, he]
          simp
        · show (if (p.1.channelId == p.1.channelId) = true then st.2 p.1.channelId + 1
                else st.2 p.1.channelId) ≤ cap
          rw [if_pos (by simp)]
          omega
      · apply ih
        · show (if (ch == p.1.channelId) = true then st.2 ch + 1 else st.2 ch)
            = ((st.1 ++ [p.1]).filter (fun v => v.channelId == ch)).length
          rw [if_neg (by simp only [beq_iff_eq]; exact fun h => hcc h.symm)]
          rw [List.filter_append, List.length_append, he]
          have hz : (([p.1]).filter (fun v => v.channelId == ch)).length = 0 := by
            simp [hcc]
          rw [hz]
          omega
        · show (if (ch == p.1.channelId) = true then st.2 ch + 1 else st.2 ch) ≤ cap
          rw [if_neg (by simp only [beq_iff_eq]; exact fun h => hcc h.symm)]
          exact hb
    · rw [if_neg hc]
      exact ih st he hb

theorem diversify_channel_cap (cap : Nat) (scored : List (Video × ℝ)) (ch : String) :
    ((diversify cap scored).filter (fun v => v.channelId == ch)).length ≤ cap := by
  unfold diversify
  exact divFold_count cap scored ch ([], fun _ => 0) (by simp) (by simp)

/-! ## Empty negative-map lemmas (the `ℚ` sum does not reduce in the kernel,
so concrete runs rewrite the step functions first) -/

theorem negScore_nil (v : Video) : negScore ([] : List (String × ℚ)) v = 0 := by
  unfold negScore negLookup
  simp

theorem mainStep_nil_eq :
    mainStep [] [] ([] : List (String × ℚ)) = fun st v =>
      if st.1.contains v.id then st else (v.id :: st.1, st.2 ++ [v]) := by
  funext st v
  unfold mainStep
  rw [negScore_nil]
  have h20 : ¬((2:ℚ) < 0) := by norm_num
  simp [ngKeywordHit, h20]

theorem shortsStep_nil_eq (histIds hiddenIds : List String) :
    shortsStep histIds hiddenIds [] [] ([] : List (String × ℚ)) = fun st v =>
      if histIds.contains v.id || hiddenIds.contains v.id || st.1.contains v.id then st
      else (v.id :: st.1, st.2 ++ [v]) := by
  funext st v
  unfold shortsStep
  rw [negScore_nil]
  have h20 : ¬((2:ℚ) < 0) := by norm_num
  simp [ngKeywordHit, h20]

/-! ## Feed-level membership lemmas -/

theorem mem_mainClean1 (envM : MainEnv) (srcM : RecSource) (v : Video)
    (hm : v ∈ (mainFilter1 envM srcM).2) :
    v.id ∉ mainSeen0 srcM ∧ ngKeywordHit srcM.ngKeywords (mixFullText v) = false ∧
      (ngChannelIdsOf srcM).contains v.channelId = false ∧
      ¬(2 < negScore srcM.negativeKeywords v) := by
  unfold mainFilter1 filterDedupeMain at hm
  rcases (mainFold_inv srcM.ngKeywords (ngChannelIdsOf srcM) srcM.negativeKeywords
      (mainTrendingRaw envM) (mainSeen0 srcM, [])).2.1 v hm with h | h
  · exact absurd h (List.not_mem_nil v)
  · exact h

theorem mem_mainClean2 (envM : MainEnv) (srcM : RecSource) (v : Video)
    (hm : v ∈ (mainFilter2 envM srcM).2) :
    v.id ∉ (mainFilter1 envM srcM).1 ∧ ngKeywordHit srcM.ngKeywords (mixFullText v) = false ∧
      (ngChannelIdsOf srcM).contains v.channelId = false ∧
      ¬(2 < negScore srcM.negativeKeywords v) := by
  unfold mainFilter2 filterDedupeMain at hm
  rcases (mainFold_inv srcM.ngKeywords (ngChannelIdsOf srcM) srcM.negativeKeywords
      (mainPersonalizedRaw envM srcM) ((mainFilter1 envM srcM).1, [])).2.1 v hm with h | h
  · exact absurd h (List.not_mem_nil v)
  · exact h

theorem mainSeen0_sub_seen1 (envM : MainEnv) (srcM : RecSource) :
    ∀ x ∈ mainSeen0 srcM, x ∈ (mainFilter1 envM srcM).1 := by
  intro x hx
  unfold mainFilter1 filterDedupeMain
  exact (mainFold_inv srcM.ngKeywords (ngChannelIdsOf srcM) srcM.negativeKeywords
    (mainTrendingRaw envM) (mainSeen0 srcM, [])).1 x hx

theorem mem_shortsClean1 (envS : ShortsEnv) (srcS : RecSource) (v : Video)
    (hm : v ∈ (shortsFilter1 envS srcS).2) :
    v.id ∉ shortsHistoryIds srcS ∧ v.id ∉ shortsHiddenIds srcS ∧
      ngKeywordHit srcS.ngKeywords (mixFullText v) = false ∧
      (ngChannelIdsOf srcS).contains v.channelId = false ∧
      ¬(2 < negScore srcS.negativeKeywords v) := by
  unfold shortsFilter1 filterDedupeShorts at hm
  rcases (shortsFold_inv (shortsHistoryIds srcS) (shortsHiddenIds srcS) (ngChannelIdsOf srcS)
      srcS.ngKeywords srcS.negativeKeywords (shortsPopularRaw envS) ([], [])).2.1 v hm with h | h
  · exact absurd h (List.not_mem_nil v)
  · exact ⟨h.1, h.2.1, h.2.2.2.1, h.2.2.2.2.1, h.2.2.2.2.2⟩

theorem mem_shortsClean2 (envS : ShortsEnv) (srcS : RecSource) (v : Video)
    (hm : v ∈ (shortsFilter2 envS srcS).2) :
    v.id ∉ shortsHistoryIds srcS ∧ v.id ∉ shortsHiddenIds srcS ∧
      v.id ∉ (shortsFilter1 envS srcS).1 ∧
      ngKeywordHit srcS.ngKeywords (mixFullText v) = false ∧
      (ngChannelIdsOf srcS).contains v.channelId = false ∧
      ¬(2 < negScore srcS.negativeKeywords v) := by
  unfold shortsFilter2 filterDedupeShorts at hm
  rcases (shortsFold_inv (shortsHistoryIds srcS) (shortsHiddenIds srcS) (ngChannelIdsOf srcS)
      srcS.ngKeywords srcS.negativeKeywords (shortsPersonalizedRaw envS srcS)
      ((shortsFilter1 envS srcS).1, [])).2.1 v hm with h | h
  · exact absurd h (List.not_mem_nil v)
  · exact h

/-- C1 (amended): the main ratio-mix feed never contains a hidden id or an
NG channel, and the short-form feed has the same guarantee on its
non-degenerate path (mixed feed nonempty); the degenerate fallback path is
excluded, where only shorts-history ids are filtered. -/
theorem c1_amended_no_hidden_or_ng
    (envM : MainEnv) (srcM : RecSource) (envS : ShortsEnv) (srcS : RecSource)
    (hMT : ∀ l, List.Perm (envM.shufTrend l) l)
    (hMP : ∀ l, List.Perm (envM.shufPersonal l) l)
    (hMF : ∀ l, List.Perm (envM.shufFinal l) l)
    (hSP : ∀ l, List.Perm (envS.shufPop l) l)
    (hSS : ∀ l, List.Perm (envS.shufPersonal l) l)
    (hSF : ∀ l, List.Perm (envS.shufFinal l) l) :
    (∀ v ∈ getXraiRecsMix envM srcM,
       v.id ∉ mainSeen0 srcM ∧ (ngChannelIdsOf srcM).contains v.channelId = false) ∧
    ((shortsMixed envS srcS).length ≠ 0 →
      ∀ v ∈ getXraiShorts envS srcS,
        v.id ∉ shortsHiddenIds srcS ∧
          (ngChannelIdsOf srcS).contains v.channelId = false) := by
  constructor
  · intro v hv
    unfold getXraiRecsMix at hv
    have hv2 := (hMF _).mem_iff.mp hv
    rw [List.mem_append] at hv2
    rcases hv2 with hvt | hvp
    · have hm : v ∈ (mainFilter1 envM srcM).2 :=
        (hMT _).mem_iff.mp (List.take_subset _ _ hvt)
      have h := mem_mainClean1 envM srcM v hm
      exact ⟨h.1, h.2.2.1⟩
    · have hm : v ∈ (mainFilter2 envM srcM).2 :=
        (hMP _).mem_iff.mp (List.take_subset _ _ hvp)
      have h := mem_mainClean2 envM srcM v hm
      exact ⟨fun hx => h.1 (mainSeen0_sub_seen1 envM srcM _ hx), h.2.2.1⟩
  · intro hne v hv
    unfold getXraiShorts at hv
    rw [if_neg hne] at hv
    have hv2 := (hSF _).mem_iff.mp hv
    unfold shortsMixed at hv2
    rw [List.mem_append] at hv2
    rcases hv2 with hvt | hvp
    · have hm : v ∈ (shortsFilter1 envS srcS).2 :=
        (hSP _).mem_iff.mp (List.take_subset _ _ hvt)
      have h := mem_shortsClean1 envS srcS v hm
      exact ⟨h.2.1, h.2.2.2.1⟩
    · have hm : v ∈ (shortsFilter2 envS srcS).2 :=
        (hSS _).mem_iff.mp (List.take_subset _ _ hvp)
      have h := mem_shortsClean2 envS srcS v hm
      exact ⟨h.2.1, h.2.2.2.2.1⟩

/-- C1 counterexample: with the popular pool consisting of exactly one
hidden short, the short-form mixed feed is empty and the degenerate fallback
returns the hidden video itself — the claim's invariant fails on the
fallback path. -/
theorem c1_counterexample :
    getXraiShorts cxShortsEnv1 cxShortsSrc = [cxVideoH] ∧
    cxVideoH.id ∈ shortsHiddenIds cxShortsSrc :=
  ⟨by decide, by decide⟩

/-- C1 witness: a run through the non-degenerate path with identity
shuffles. -/
theorem c1_witness :
    (shortsMixed cwShortsEnv cxMainSrc).length ≠ 0 ∧
    ((∀ v ∈ getXraiRecsMix cwMainEnv cxMainSrc,
       v.id ∉ mainSeen0 cxMainSrc ∧
         (ngChannelIdsOf cxMainSrc).contains v.channelId = false) ∧
     ((shortsMixed cwShortsEnv cxMainSrc).length ≠ 0 →
       ∀ v ∈ getXraiShorts cwShortsEnv cxMainSrc,
         v.id ∉ shortsHiddenIds cxMainSrc ∧
           (ngChannelIdsOf cxMainSrc).contains v.channelId = false)) := by
  constructor
  · simp only [shortsMixed, shortsFilter1, shortsFilter2, filterDedupeShorts,
      shortsHistoryIds, shortsHiddenIds, ngChannelIdsOf, cxMainSrc, cwShortsEnv,
      shortsPopularRaw, shortsPersonalizedRaw, shortsSeeds, shortsSeedsFromWatch,
      Option.getD_none, List.map_nil, shortsStep_nil_eq]
    decide
  · exact c1_amended_no_hidden_or_ng cwMainEnv cxMainSrc cwShortsEnv cxMainSrc
      (fun l => List.Perm.refl l) (fun l => List.Perm.refl l) (fun l => List.Perm.refl l)
      (fun l => List.Perm.refl l) (fun l => List.Perm.refl l) (fun l => List.Perm.refl l)

/-! ## Feed-level no-duplicate lemmas -/

theorem mainClean_ids (envM : MainEnv) (srcM : RecSource) :
    ((mainFilter1 envM srcM).2.map (fun v => v.id)).Nodup ∧
    (∀ v ∈ (mainFilter1 envM srcM).2, v.id ∈ (mainFilter1 envM srcM).1) ∧
    ((mainFilter2 envM srcM).2.map (fun v => v.id)).Nodup := by
  have h1 := (mainFold_inv srcM.ngKeywords (ngChannelIdsOf srcM) srcM.negativeKeywords
    (mainTrendingRaw envM) (mainSeen0 srcM, [])).2.2 (by simp) (by simp)
  have h2 := (mainFold_inv srcM.ngKeywords (ngChannelIdsOf srcM) srcM.negativeKeywords
    (mainPersonalizedRaw envM srcM) ((mainFilter1 envM srcM).1, [])).2.2 (by simp) (by simp)
  exact ⟨h1.1, h1.2, h2.1⟩

theorem nodup_mix_of_pools (p1 p2 : List Video) (t1 t2 : List Video) (n1 n2 : Nat)
    (sh1 sh2 shF : List Video → List Video)
    (h1 : ∀ l, List.Perm (sh1 l) l) (h2 : ∀ l, List.Perm (sh2 l) l)
    (hF : ∀ l, List.Perm (shF l) l)
    (ht1 : t1 = (sh1 p1).take n1) (ht2 : t2 = (sh2 p2).take n2)
    (hn1 : (p1.map (fun v => v.id)).Nodup) (hn2 : (p2.map (fun v => v.id)).Nodup)
    (hdis : ∀ v ∈ p1, ∀ w ∈ p2, v.id ≠ w.id) :
    ((shF (t1 ++ t2)).map (fun v => v.id)).Nodup := by
  have hperm := (hF (t1 ++ t2)).map (fun v => v.id)
  rw [hperm.nodup_iff]
  rw [List.map_append, List.nodup_append]
  have hs1 : t1.Sublist (sh1 p1) := ht1 ▸ List.take_sublist n1 (sh1 p1)
  have hs2 : t2.Sublist (sh2 p2) := ht2 ▸ List.take_sublist n2 (sh2 p2)
  have hm1 : ((sh1 p1).map (fun v => v.id)).Nodup := (((h1 p1).map _).nodup_iff).mpr hn1
  have hm2 : ((sh2 p2).map (fun v => v.id)).Nodup := (((h2 p2).map _).nodup_iff).mpr hn2
  refine ⟨(hs1.map _).nodup hm1, (hs2.map _).nodup hm2, ?_⟩
  intro x hx
  simp only [List.mem_map] at hx ⊢
  obtain ⟨v, hv, hvx⟩ := hx
  have hv1 : v ∈ p1 := (h1 p1).mem_iff.mp (hs1.subset hv)
  intro ⟨w, hw, hwx⟩
  have hw2 : w ∈ p2 := (h2 p2).mem_iff.mp (hs2.subset hw)
  exact hdis v hv1 w hw2 (by rw [hvx, hwx])

theorem rankVideos_nodup (sortScored : List (Video × ℝ) → List (Video × ℝ))
    (hs : ∀ l, List.Perm (sortScored l) l)
    (videos : List Video) (profile : KwMap) (ctx : ScoringContext) :
    ((rankVideos sortScored videos profile ctx).map (fun v => v.id)).Nodup := by
  unfold rankVideos
  have hsub := (diversify_sublist 3 (sortScored (scorePass profile ctx videos))).map
    (fun v => v.id)
  apply hsub.nodup
  rw [List.map_map]
  have hperm := (hs (scorePass profile ctx videos)).map (fun p => p.1.id)
  rw [show ((fun v => v.id) ∘ fun p : Video × ℝ => p.1) = fun p : Video × ℝ => p.1.id from rfl]
  rw [hperm.nodup_iff]
  exact scorePass_nodup profile ctx videos

/-- C2 (amended): feed length never exceeds the target (50 for the two main
feeds, 40 for the short-form feed), and ids are duplicate-free for the main
ratio-mix feed, for the profile-ranked feed, and for the short-form feed on
its non-degenerate path; the degenerate fallback path is excluded from the
no-duplicate guarantee — it does not deduplicate the raw popular pool. -/
theorem c2_amended_len_nodup
    (envM : MainEnv) (srcM : RecSource) (envS : ShortsEnv) (srcS : RecSource)
    (cat : Catalog) (shufHist : List Video → List Video)
    (shufSubs : List Channel → List Channel) (sortEntries : KwMap → KwMap)
    (sortScored : List (Video × ℝ) → List (Video × ℝ)) (srcX : XraiSource)
    (hMT : ∀ l, List.Perm (envM.shufTrend l) l)
    (hMP : ∀ l, List.Perm (envM.shufPersonal l) l)
    (hMF : ∀ l, List.Perm (envM.shufFinal l) l)
    (hSP : ∀ l, List.Perm (envS.shufPop l) l)
    (hSS : ∀ l, List.Perm (envS.shufPersonal l) l)
    (hSF : ∀ l, List.Perm (envS.shufFinal l) l)
    (hsc : ∀ l, List.Perm (sortScored l) l) :
    (getXraiRecsMix envM srcM).length ≤ 50 ∧
    ((getXraiRecsMix envM srcM).map (fun v => v.id)).Nodup ∧
    (getXraiShorts envS srcS).length ≤ 40 ∧
    ((shortsMixed envS srcS).length ≠ 0 →
      ((getXraiShorts envS srcS).map (fun v => v.id)).Nodup) ∧
    (getXraiRecsProfile cat shufHist shufSubs sortEntries sortScored srcX).length ≤ 50 ∧
    ((getXraiRecsProfile cat shufHist shufSubs sortEntries sortScored srcX).map
      (fun v => v.id)).Nodup := by
  refine ⟨?_, ?_, ?_, ?_, ?_, ?_⟩
  · unfold getXraiRecsMix
    rw [(hMF _).length_eq, List.length_append]
    have l1 := List.length_take_le mainNumTrending (envM.shufTrend (mainFilter1 envM srcM).2)
    have l2 := List.length_take_le mainNumPersonalized
      (envM.shufPersonal (mainFilter2 envM srcM).2)
    have : mainNumTrending + mainNumPersonalized = 50 := by decide
    omega
  · obtain ⟨hn1, hrec, hn2⟩ := mainClean_ids envM srcM
    unfold getXraiRecsMix
    exact nodup_mix_of_pools (mainFilter1 envM srcM).2 (mainFilter2 envM srcM).2 _ _
      mainNumTrending mainNumPersonalized envM.shufTrend envM.shufPersonal envM.shufFinal
      hMT hMP hMF rfl rfl hn1 hn2
      (fun v hv w hw he => (mem_mainClean2 envM srcM w hw).1 (he ▸ hrec v hv))
  · unfold getXraiShorts
    by_cases hc : (shortsMixed envS srcS).length = 0
    · rw [if_pos hc]
      have := List.length_take_le 20 (envS.shufFallback ((shortsPopularRaw envS).filter
        (fun v => !(shortsHistoryIds srcS).contains v.id)))
      omega
    · rw [if_neg hc]
      rw [(hSF _).length_eq]
      unfold shortsMixed
      rw [List.length_append]
      have l1 := List.length_take_le shortsNumPopular (envS.shufPop (shortsFilter1 envS srcS).2)
      have l2 := List.length_take_le (40 - shortsNumPopular)
        (envS.shufPersonal (shortsFilter2 envS srcS).2)
      have : shortsNumPopular = 30 := by decide
      omega
  · intro hne
    have h1 := (shortsFold_inv (shortsHistoryIds srcS) (shortsHiddenIds srcS)
      (ngChannelIdsOf srcS) srcS.ngKeywords srcS.negativeKeywords
      (shortsPopularRaw envS) ([], [])).2.2 (by simp) (by simp)
    have h2 := (shortsFold_inv (shortsHistoryIds srcS) (shortsHiddenIds srcS)
      (ngChannelIdsOf srcS) srcS.ngKeywords srcS.negativeKeywords
      (shortsPersonalizedRaw envS srcS) ((shortsFilter1 envS srcS).1, [])).2.2
      (by simp) (by simp)
    unfold getXraiShorts
    rw [if_neg hne]
    unfold shortsMixed
    exact nodup_mix_of_pools (shortsFilter1 envS srcS).2 (shortsFilter2 envS srcS).2 _ _
      shortsNumPopular (40 - shortsNumPopular) envS.shufPop envS.shufPersonal envS.shufFinal
      hSP hSS hSF rfl rfl h1.1 h2.1
      (fun v hv w hw he => (mem_shortsClean2 envS srcS w hw).2.2.1 (he ▸ h1.2 v hv))
  · unfold getXraiRecsProfile
    exact List.length_take_le 50 _
  · unfold getXraiRecsProfile
    have hsub := (List.take_sublist 50 (rankVideos sortScored
      (xraiAllCandidates cat shufHist shufSubs sortEntries srcX)
      (buildUserProfile ⟨srcX.watchHistory, srcX.searchHistory, srcX.subscribedChannels⟩)
      ⟨srcX.ngKeywords, srcX.ngChannels, srcX.watchHistory⟩)).map (fun v => v.id)
    exact hsub.nodup (rankVideos_nodup sortScored hsc _ _ _)

/-- C2 counterexample: the degenerate fallback of the short-form feed does
not deduplicate — a popular pool repeating one hidden short yields a feed
with the same id twice. -/
theorem c2_counterexample :
    getXraiShorts cxShortsEnv2 cxShortsSrc = [cxVideoH, cxVideoH] ∧
    ¬ ((getXraiShorts cxShortsEnv2 cxShortsSrc).map (fun v => v.id)).Nodup :=
  ⟨by decide, by decide⟩

/-- C2 witness: a run through the non-degenerate path with identity shuffles
and sorts. -/
theorem c2_witness :
    (shortsMixed cwShortsEnv cxMainSrc).length ≠ 0 ∧
    ((getXraiRecsMix cwMainEnv cxMainSrc).length ≤ 50 ∧
     ((getXraiRecsMix cwMainEnv cxMainSrc).map (fun v => v.id)).Nodup ∧
     (getXraiShorts cwShortsEnv cxMainSrc).length ≤ 40 ∧
     ((shortsMixed cwShortsEnv cxMainSrc).length ≠ 0 →
       ((getXraiShorts cwShortsEnv cxMainSrc).map (fun v => v.id)).Nodup) ∧
     (getXraiRecsProfile c7Cat id id id id c7Src).length ≤ 50 ∧
     ((getXraiRecsProfile c7Cat id id id id c7Src).map (fun v => v.id)).Nodup) := by
  constructor
  · simp only [shortsMixed, shortsFilter1, shortsFilter2, filterDedupeShorts,
      shortsHistoryIds, shortsHiddenIds, ngChannelIdsOf, cxMainSrc, cwShortsEnv,
      shortsPopularRaw, shortsPersonalizedRaw, shortsSeeds, shortsSeedsFromWatch,
      Option.getD_none, List.map_nil, shortsStep_nil_eq]
    decide
  · exact c2_amended_len_nodup cwMainEnv cxMainSrc cwShortsEnv cxMainSrc c7Cat id id id id c7Src
      (fun l => List.Perm.refl l) (fun l => List.Perm.refl l) (fun l => List.Perm.refl l)
      (fun l => List.Perm.refl l) (fun l => List.Perm.refl l) (fun l => List.Perm.refl l)
      (fun l => List.Perm.refl l)

/-- C3 (amended): the per-channel diversity cap of 3 holds for the
profile-ranked feed — the diversifier admits a candidate only while its
channel's running count is below the cap and drops rejected candidates; the
ratio-mix feeds apply no per-channel cap, so the claim's universal bound
fails there. -/
theorem c3_amended_channel_cap (sortScored : List (Video × ℝ) → List (Video × ℝ))
    (videos : List Video) (profile : KwMap) (ctx : ScoringContext) (ch : String) :
    ((rankVideos sortScored videos profile ctx).filter
      (fun v => v.channelId == ch)).length ≤ 3 := by
  unfold rankVideos
  exact diversify_channel_cap 3 _ ch

/-- C3 counterexample: the main ratio-mix feed admits four videos of one
channel — no diversity cap is applied on that path. -/
theorem c3_counterexample :
    ((getXraiRecsMix cxMainEnv cxMainSrc).filter
      (fun v => v.channelId == "chanX")).length = 4 := by
  simp only [getXraiRecsMix, mainFilter1, mainFilter2, filterDedupeMain, mainSeen0,
    ngChannelIdsOf, cxMainSrc, cxMainEnv, mainTrendingRaw, mainPersonalizedRaw, mainSeeds,
    List.map_nil, mainStep_nil_eq]
  decide

/-- C10: the profile-ranked feed never contains a video whose id occurs in
the supplied watch history (the scorer's seen-id set is seeded with the
watch-history ids, and the diversifier only drops or reorders). -/
theorem c10_watched_excluded (sortScored : List (Video × ℝ) → List (Video × ℝ))
    (hs : ∀ l, List.Perm (sortScored l) l)
    (videos : List Video) (profile : KwMap) (ctx : ScoringContext) :
    ∀ v ∈ rankVideos sortScored videos profile ctx,
      ∀ w ∈ ctx.watchHistory, v.id ≠ w.id := by
  intro v hv w hw
  unfold rankVideos at hv
  have hv2 : v ∈ (sortScored (scorePass profile ctx videos)).map (fun p => p.1) :=
    (diversify_sublist 3 _).subset hv
  have hv3 : v ∈ (scorePass profile ctx videos).map (fun p => p.1) :=
    ((hs _).map (fun p => p.1)).mem_iff.mp hv2
  obtain ⟨p, hp, hpv⟩ := List.mem_map.mp hv3
  rw [← hpv]
  exact scorePass_not_watched profile ctx videos p hp w hw

/-- C10 witness: a concrete ranking pass with a candidate sharing the watched
id, under the identity sort; the surviving video `c10Fresh` is not the watched
one. -/
theorem c10_witness : c10Fresh.id ≠ c10Hist.id :=
  c10_watched_excluded id (fun l => List.Perm.refl l) [c10Cand, c10Fresh] c4Profile c10Ctx
    c10Fresh
      ((show rankVideos id [c10Cand, c10Fresh] c4Profile c10Ctx = [c10Fresh] from rfl) ▸
        List.mem_singleton.mpr rfl)
    c10Hist (List.mem_singleton.mpr rfl)

/-! ## Fan-out / fan-in isolation -/

/-- C7: if the i-th fan-out call rejects, its settled contribution is the
empty list, and every video of every fulfilled call still reaches the pool
passed to the filtering stage; the engine itself is total — no error
propagates. -/
theorem c7_fanin_isolation (cat : Catalog)
    (shufHist : List Video → List Video) (shufSubs : List Channel → List Channel)
    (sortEntries : KwMap → KwMap) (src : XraiSource) (i : Nat)
    (h : (xraiRawCalls cat shufHist shufSubs sortEntries src)[i]? =
      some (Except.error ())) :
    ((xraiRawCalls cat shufHist shufSubs sortEntries src).map settle)[i]? =
      some ([] : List Video) ∧
    (∀ (j : Nat) (vs : List Video),
      (xraiRawCalls cat shufHist shufSubs sortEntries src)[j]? = some (Except.ok vs) →
      ∀ v ∈ vs, v ∈ xraiAllCandidates cat shufHist shufSubs sortEntries src) := by
  constructor
  · rw [List.getElem?_map, h]
    rfl
  · intro j vs hj v hv
    unfold xraiAllCandidates
    rw [List.mem_flatten]
    refine ⟨vs, ?_, hv⟩
    rw [List.mem_map]
    exact ⟨Except.ok vs, List.getElem?_mem hj, rfl⟩

/-- C7 witness: a cold-start run whose only call (the trending fallback)
rejects. -/
theorem c7_witness :
    (xraiRawCalls c7Cat id id id c7Src)[0]? = some (Except.error ()) ∧
    (((xraiRawCalls c7Cat id id id c7Src).map settle)[0]? = some ([] : List Video) ∧
     (∀ (j : Nat) (vs : List Video),
       (xraiRawCalls c7Cat id id id c7Src)[j]? = some (Except.ok vs) →
       ∀ v ∈ vs, v ∈ xraiAllCandidates c7Cat id id id c7Src)) :=
  ⟨rfl, c7_fanin_isolation c7Cat id id id c7Src 0 rfl⟩

/-! ## Negative-keyword threshold -/

/-- C8: in both ratio-mix filters, a candidate that survives the duplicate,
history, hidden, NG-keyword and NG-channel checks is rejected exactly when
its aggregate negative-keyword penalty strictly exceeds 2. -/
theorem c8_negative_threshold (ngk ngc histIds hiddenIds seen : List String)
    (neg : List (String × ℚ)) (v : Video)
    (h1 : seen.contains v.id = false)
    (h2 : ngKeywordHit ngk (mixFullText v) = false)
    (h3 : ngc.contains v.channelId = false)
    (h4 : histIds.contains v.id = false)
    (h5 : hiddenIds.contains v.id = false) :
    ((filterDedupeMain ngk ngc neg seen [v]).2 = [] ↔ 2 < negScore neg v) ∧
    ((filterDedupeShorts histIds hiddenIds ngc ngk neg seen [v]).2 = [] ↔
      2 < negScore neg v) := by
  constructor
  · unfold filterDedupeMain
    simp only [List.foldl_cons, List.foldl_nil]
    unfold mainStep
    simp only [h1, h2, h3, Bool.false_eq_true, if_false]
    by_cases hneg : 2 < negScore neg v
    · rw [if_pos hneg]
      simp [hneg]
    · rw [if_neg hneg]
      simp [hneg]
  · unfold filterDedupeShorts
    simp only [List.foldl_cons, List.foldl_nil]
    unfold shortsStep
    simp only [h1, h2, h3, h4, h5, Bool.or_self, Bool.false_eq_true, if_false]
    by_cases hneg : 2 < negScore neg v
    · rw [if_pos hneg]
      simp [hneg]
    · rw [if_neg hneg]
      simp [hneg]

/-- C8 witness: a candidate whose penalty is 3 (rejected in both filters),
with all prior checks passing. -/
theorem c8_witness :
    2 < negScore c8Neg c8Video ∧
    (((filterDedupeMain [] [] c8Neg [] [c8Video]).2 = [] ↔ 2 < negScore c8Neg c8Video) ∧
     ((filterDedupeShorts [] [] [] [] c8Neg [] [c8Video]).2 = [] ↔
       2 < negScore c8Neg c8Video)) := by
  constructor
  · have he1 : extractKeywords c8Video.title = ["spam", "content"] := by decide
    have he2 : extractKeywords c8Video.channelName = ["someone"] := by decide
    have hl1 : negLookup c8Neg "spam" = some 3 := by decide
    have hl2 : negLookup c8Neg "content" = none := by decide
    have hl3 : negLookup c8Neg "someone" = none := by decide
    unfold negScore
    rw [he1, he2]
    simp only [List.cons_append, List.nil_append, List.map_cons, List.map_nil,
      hl1, hl2, hl3, Option.getD_some, Option.getD_none, List.sum_cons, List.sum_nil]
    norm_num
  · exact c8_negative_threshold [] [] [] [] [] c8Neg c8Video rfl rfl rfl rfl rfl

/-- C5: the recency parser maps minutes- and hours-ago strings to 0, N日前
to N, N週間前 to 7N, Nか月前 to 30N, N年前 to 365N, and empty or
unparseable (no unit substring) input to the sentinel 999; consequently a
video tagged 3日前 gets strictly higher freshness than one tagged 40日前,
and a parsed age above 60 days gives freshness ≤ 0. -/
theorem c5_recency_freshness :
    (∀ n : Nat,
      parseUploadedAt (natStr n ++ "分前") = 0 ∧
      parseUploadedAt (natStr n ++ "時間前") = 0 ∧
      parseUploadedAt (natStr n ++ "日前") = n ∧
      parseUploadedAt (natStr n ++ "週間前") = 7 * n ∧
      parseUploadedAt (natStr n ++ "か月前") = 30 * n ∧
      parseUploadedAt (natStr n ++ "年前") = 365 * n) ∧
    parseUploadedAt "" = 999 ∧
    (∀ s : String, s ≠ "" →
      (∀ u ∈ ["分前", "時間前", "日前", "週間前", "か月前", "年前"],
        subInside u.data (s.data.map lowerChar) = false) →
      parseUploadedAt s = 999) ∧
    (∀ v w : Video, v.uploadedAt = "3日前" → w.uploadedAt = "40日前" →
      freshnessOf w < freshnessOf v) ∧
    (∀ v : Video, 60 < parseUploadedAt v.uploadedAt → freshnessOf v ≤ 0) := by
  refine ⟨?_, rfl, parseUploadedAt_unparseable, ?_, ?_⟩
  · intro n
    refine ⟨parseUploadedAt_minutes n, parseUploadedAt_hours n, parseUploadedAt_days n,
      ?_, ?_, ?_⟩
    · rw [Nat.mul_comm]
      exact parseUploadedAt_weeks n
    · rw [Nat.mul_comm]
      exact parseUploadedAt_months n
    · rw [Nat.mul_comm]
      exact parseUploadedAt_years n
  · intro v w hv hw
    unfold freshnessOf
    rw [hv, hw]
    rw [show parseUploadedAt "3日前" = 3 from by decide]
    rw [show parseUploadedAt "40日前" = 40 from by decide]
    exact freshness_days_mono
  · intro v hv
    unfold freshnessOf
    exact freshness_nonpos_of_old _ hv

/-- C5 witness: the parser at concrete inputs, and the freshness comparisons
at concrete videos. -/
theorem c5_witness :
    parseUploadedAt (natStr 3 ++ "日前") = 3 ∧
    parseUploadedAt (natStr 2 ++ "週間前") = 7 * 2 ∧
    parseUploadedAt "" = 999 ∧
    parseUploadedAt "live" = 999 ∧
    freshnessOf c5Video40 < freshnessOf c5Video3 ∧
    freshnessOf c5VideoOld ≤ 0 :=
  ⟨(c5_recency_freshness.1 3).2.2.1,
   (c5_recency_freshness.1 2).2.2.2.1,
   c5_recency_freshness.2.1,
   c5_recency_freshness.2.2.1 "live" (by decide) (by decide),
   c5_recency_freshness.2.2.2.1 c5Video3 c5Video40 rfl rfl,
   c5_recency_freshness.2.2.2.2 c5VideoOld (by decide)⟩

/-! ## Deduplication lemmas -/

theorem dedupFirstAux_sub : ∀ (l seen : List String), ∀ x ∈ dedupFirstAux l seen, x ∈ l := by
  intro l
  induction l with
  | nil =>
    intro seen x hx
    simp [dedupFirstAux] at hx
  | cons s rest ih =>
    intro seen x hx
    unfold dedupFirstAux at hx
    split_ifs at hx with hc
    · exact List.mem_cons_of_mem _ (ih seen x hx)
    · rcases List.mem_cons.mp hx with h | h
      · subst h
        exact List.mem_cons_self _ _
      · exact List.mem_cons_of_mem _ (ih (s :: seen) x h)

theorem dedupFirstAux_nodup : ∀ (l seen : List String),
    (dedupFirstAux l seen).Nodup ∧ ∀ x ∈ dedupFirstAux l seen, x ∉ seen := by
  intro l
  induction l with
  | nil =>
    intro seen
    simp [dedupFirstAux]
  | cons s rest ih =>
    intro seen
    unfold dedupFirstAux
    split_ifs with hc
    · exact ih seen
    · obtain ⟨hnd, hout⟩ := ih (s :: seen)
      constructor
      · rw [List.nodup_cons]
        exact ⟨fun hmem => (hout s hmem) (List.mem_cons_self _ _), hnd⟩
      · intro x hx
        rcases List.mem_cons.mp hx with h | h
        · subst h
          exact fun hmem => hc ((strContains_iff_mem seen x).mpr hmem)
        · exact fun hmem => (hout x h) (List.mem_cons_of_mem _ hmem)

theorem dedupFirstAux_fix : ∀ (l seen : List String), l.Nodup → (∀ x ∈ l, x ∉ seen) →
    dedupFirstAux l seen = l := by
  intro l
  induction l with
  | nil =>
    intro seen _ _
    rfl
  | cons s rest ih =>
    intro seen hnd hout
    obtain ⟨hs, hndr⟩ := List.nodup_cons.mp hnd
    unfold dedupFirstAux
    rw [if_neg (by
      simp only [strContains_iff_mem]
      exact hout s (List.mem_cons_self _ _))]
    congr 1
    apply ih (s :: seen) hndr
    intro x hx
    intro hmem
    rcases List.mem_cons.mp hmem with h | h
    · exact hs (h ▸ hx)
    · exact hout x (List.mem_cons_of_mem _ hx) h

theorem dedupFirst_nodup (l : List String) : (dedupFirst l).Nodup :=
  (dedupFirstAux_nodup l []).1

theorem dedupFirst_sub (l : List String) : ∀ x ∈ dedupFirst l, x ∈ l :=
  dedupFirstAux_sub l []

theorem dedupFirst_fix (l : List String) (h : l.Nodup) : dedupFirst l = l :=
  dedupFirstAux_fix l [] h (by simp)

theorem extractKeywords_nodup (t : String) : (extractKeywords t).Nodup := by
  unfold extractKeywords
  split_ifs
  · exact List.nodup_nil
  · exact dedupFirst_nodup _

/-! ## Profile-map lemmas -/

theorem kwGet_map_update_found (m : KwMap) (k : String) (x : ℝ)
    (hc : m.any (fun p => p.1 == k) = true) :
    kwGet (m.map (fun p => if p.1 == k then (p.1, x) else p)) k = some x := by
  induction m with
  | nil => simp at hc
  | cons p t ih =>
    simp only [List.any_cons, Bool.or_eq_true] at hc
    by_cases hp : (p.1 == k) = true
    · unfold kwGet
      simp only [List.map_cons, if_pos hp]
      rw [List.find?_cons_of_pos _ (by simpa using hp)]
      rfl
    · have hct : t.any (fun p => p.1 == k) = true := by
        rcases hc with h | h
        · exact absurd h hp
        · exact h
      unfold kwGet at ih ⊢
      simp only [List.map_cons, if_neg hp]
      rw [List.find?_cons_of_neg _ (by simpa using hp)]
      exact ih hct

theorem kwGet_append_new (m : KwMap) (k : String) (x : ℝ)
    (hc : m.any (fun p => p.1 == k) = false) :
    kwGet (m ++ [(k, x)]) k = some x := by
  induction m with
  | nil =>
    unfold kwGet
    rw [List.nil_append, List.find?_cons_of_pos _ (by simp)]
    rfl
  | cons p t ih =>
    simp only [List.any_cons, Bool.or_eq_false_iff] at hc
    unfold kwGet at ih ⊢
    rw [List.cons_append, List.find?_cons_of_neg _ (by simp [hc.1])]
    exact ih hc.2

theorem kwGet_kwSet_self (m : KwMap) (k : String) (x : ℝ) :
    kwGet (kwSet m k x) k = some x := by
  unfold kwSet
  split_ifs with hc
  · exact kwGet_map_update_found m k x hc
  · exact kwGet_append_new m k x (by
      cases h : m.any (fun p => p.1 == k)
      · rfl
      · exact absurd h hc)

theorem kwGet_map_update_other (m : KwMap) (k k' : String) (x : ℝ) (hne : k' ≠ k) :
    kwGet (m.map (fun p => if p.1 == k then (p.1, x) else p)) k' = kwGet m k' := by
  induction m with
  | nil => rfl
  | cons p t ih =>
    unfold kwGet at ih ⊢
    simp only [List.map_cons]
    by_cases hpk : (p.1 == k) = true
    · have hp : (p.1 == k') = false := by
        simp only [beq_iff_eq] at hpk
        rw [beq_eq_false_iff_ne, hpk]
        exact fun h => hne h.symm
      rw [if_pos hpk]
      rw [List.find?_cons_of_neg _ (by simp [hp]), List.find?_cons_of_neg _ (by simp [hp])]
      exact ih
    · rw [if_neg hpk]
      by_cases hp : (p.1 == k') = true
      · rw [List.find?_cons_of_pos _ (by simpa using hp),
          List.find?_cons_of_pos _ (by simpa using hp)]
      · rw [List.find?_cons_of_neg _ (by simpa using hp),
          List.find?_cons_of_neg _ (by simpa using hp)]
        exact ih

theorem kwGet_append_other (m : KwMap) (k k' : String) (x : ℝ) (hne : k' ≠ k) :
    kwGet (m ++ [(k, x)]) k' = kwGet m k' := by
  induction m with
  | nil =>
    unfold kwGet
    rw [List.nil_append, List.find?_cons_of_neg _ (by
      simp only [beq_iff_eq]
      exact fun h => hne h.symm)]
  | cons p t ih =>
    unfold kwGet at ih ⊢
    by_cases hp : (p.1 == k') = true
    · rw [List.cons_append, List.find?_cons_of_pos _ (by simpa using hp),
        List.find?_cons_of_pos _ (by simpa using hp)]
    · rw [List.cons_append, List.find?_cons_of_neg _ (by simpa using hp),
        List.find?_cons_of_neg _ (by simpa using hp)]
      exact ih

theorem kwGet_kwSet_other (m : KwMap) (k k' : String) (x : ℝ) (hne : k' ≠ k) :
    kwGet (kwSet m k x) k' = kwGet m k' := by
  unfold kwSet
  split_ifs with hc
  · exact kwGet_map_update_other m k k' x hne
  · exact kwGet_append_other m k k' x hne

theorem foldl_kwAdd_get : ∀ (L : List String), L.Nodup → ∀ (w : ℝ) (k : String) (m : KwMap),
    (kwGet (L.foldl (fun acc kw => kwSet acc kw ((kwGet acc kw).getD 0 + w)) m) k).getD 0 =
      (kwGet m k).getD 0 + (if k ∈ L then w else 0) := by
  intro L
  induction L with
  | nil =>
    intro _ w k m
    simp
  | cons kw t ih =>
    intro hnd w k m
    obtain ⟨hkw, hndt⟩ := List.nodup_cons.mp hnd
    rw [List.foldl_cons]
    by_cases hk : k = kw
    · subst hk
      rw [ih hndt w k _]
      rw [if_neg hkw, if_pos (List.mem_cons_self _ _)]
      rw [kwGet_kwSet_self]
      simp
    · rw [ih hndt w k _]
      rw [kwGet_kwSet_other m kw k _ hk]
      by_cases hkt : k ∈ t
      · rw [if_pos hkt, if_pos (List.mem_cons_of_mem _ hkt)]
      · rw [if_neg hkt, if_neg (by
          intro h
          rcases List.mem_cons.mp h with h | h
          · exact hk h
          · exact hkt h)]

theorem addKeywords_get (m : KwMap) (text : String) (w : ℝ) (k : String) :
    (kwGet (addKeywords m text w) k).getD 0 =
      (kwGet m k).getD 0 + (if k ∈ extractKeywords text then w else 0) :=
  foldl_kwAdd_get (extractKeywords text) (extractKeywords_nodup text) w k m

theorem foldl_profile_get {α : Type} (l : List α) (s : KwMap → α → KwMap) (h : α → ℝ)
    (k : String) (hs : ∀ (m : KwMap) (a : α),
      (kwGet (s m a) k).getD 0 = (kwGet m k).getD 0 + h a) :
    ∀ m : KwMap, (kwGet (l.foldl s m) k).getD 0 = (kwGet m k).getD 0 + (l.map h).sum := by
  induction l with
  | nil =>
    intro m
    simp
  | cons a t ih =>
    intro m
    rw [List.foldl_cons, List.map_cons, List.sum_cons, ih (s m a), hs m a]
    ring

/-- C6: the profile builder accumulates, additively per keyword, exactly
`3·exp(-i/5)` per search term at position i, `2·exp(-i/10)` per watched
video's title at position i with channel-name keywords at 0.8× and
description keywords at 0.5× that value, and a flat 1.5 per subscribed
channel's name keywords. -/
theorem c6_profile_weights (s : UserSources) (k : String) :
    (kwGet (buildUserProfile s) k).getD 0 =
      (s.searchHistory.enum.map (fun p =>
        if k ∈ extractKeywords p.2 then 3 * Real.exp (-(p.1 : ℝ) / 5) else 0)).sum
    + (s.watchHistory.enum.map (fun p =>
        (if k ∈ extractKeywords p.2.title then 2 * Real.exp (-(p.1 : ℝ) / 10) else 0)
      + (if k ∈ extractKeywords p.2.channelName then 2 * Real.exp (-(p.1 : ℝ) / 10) * 0.8
         else 0)
      + (if k ∈ extractKeywords (p.2.descriptionSnippet.getD "") then
          2 * Real.exp (-(p.1 : ℝ) / 10) * 0.5 else 0))).sum
    + (s.subscribedChannels.map (fun c =>
        if k ∈ extractKeywords c.name then (1.5:ℝ) else 0)).sum := by
  have hs1 : ∀ (m : KwMap) (p : Nat × String),
      (kwGet (addKeywords m p.2 (3 * Real.exp (-(p.1 : ℝ) / 5))) k).getD 0 =
        (kwGet m k).getD 0 +
          (if k ∈ extractKeywords p.2 then 3 * Real.exp (-(p.1 : ℝ) / 5) else 0) :=
    fun m p => addKeywords_get m p.2 _ k
  have hs2 : ∀ (m : KwMap) (p : Nat × Video),
      (kwGet (addKeywords (addKeywords (addKeywords m p.2.title
            (2 * Real.exp (-(p.1 : ℝ) / 10)))
          p.2.channelName (2 * Real.exp (-(p.1 : ℝ) / 10) * 0.8))
          (p.2.descriptionSnippet.getD "") (2 * Real.exp (-(p.1 : ℝ) / 10) * 0.5)) k).getD 0 =
        (kwGet m k).getD 0 +
          ((if k ∈ extractKeywords p.2.title then 2 * Real.exp (-(p.1 : ℝ) / 10) else 0)
        + (if k ∈ extractKeywords p.2.channelName then 2 * Real.exp (-(p.1 : ℝ) / 10) * 0.8
           else 0)
        + (if k ∈ extractKeywords (p.2.descriptionSnippet.getD "") then
            2 * Real.exp (-(p.1 : ℝ) / 10) * 0.5 else 0)) := by
    intro m p
    rw [addKeywords_get, addKeywords_get, addKeywords_get]
    ring
  have hs3 : ∀ (m : KwMap) (c : Channel),
      (kwGet (addKeywords m c.name 1.5) k).getD 0 =
        (kwGet m k).getD 0 + (if k ∈ extractKeywords c.name then (1.5:ℝ) else 0) :=
    fun m c => addKeywords_get m c.name 1.5 k
  unfold buildUserProfile
  rw [foldl_profile_get s.subscribedChannels _ _ k hs3]
  rw [foldl_profile_get s.watchHistory.enum _ _ k hs2]
  rw [foldl_profile_get s.searchHistory.enum _ _ k hs1]
  have h0 : (kwGet ([] : KwMap) k).getD 0 = 0 := rfl
  rw [h0]
  ring

/-! ## Scoring-scenario lemmas -/

theorem log_ten_gt_two : (2:ℝ) < Real.log 10 := by
  have h2 : Real.exp 2 = Real.exp 1 * Real.exp 1 := by
    rw [← Real.exp_add]
    norm_num
  have h1 := Real.exp_one_lt_d9
  have he : Real.exp 2 < 10 := by
    rw [h2]
    nlinarith [Real.exp_pos 1]
  exact (Real.lt_log_iff_exp_lt (by norm_num)).mpr he

theorem logb_ten_million : Real.logb 10 1000000 = 6 := by
  rw [show (1000000:ℝ) = 10 ^ (6:ℕ) by norm_num, Real.logb_pow, Real.logb_self_eq_one] <;>
    norm_num

theorem logb_scenario_lower : (6:ℝ) < Real.logb 10 1000001 := by
  rw [← logb_ten_million]
  exact Real.logb_lt_logb (by norm_num) (by norm_num) (by norm_num)

theorem logb_scenario_upper : Real.logb 10 1000001 ≤ 6 + 1 / 1000000 := by
  have hsplit : (1000001:ℝ) = 1000000 * (1000001 / 1000000) := by norm_num
  have hlog : Real.log 1000001 ≤ Real.log 1000000 + 1 / 1000000 := by
    rw [hsplit, Real.log_mul (by norm_num) (by norm_num)]
    have hle := Real.log_le_sub_one_of_pos (show (0:ℝ) < 1000001 / 1000000 by norm_num)
    have hsub : (1000001:ℝ) / 1000000 - 1 = 1 / 1000000 := by norm_num
    linarith
  have hpos := log_ten_gt_two
  have h6 : Real.log 1000000 = 6 * Real.log 10 := by
    rw [show (1000000:ℝ) = 10 ^ (6:ℕ) by norm_num, Real.log_pow]
    norm_num
  unfold Real.logb
  rw [div_le_iff₀ (by linarith)]
  nlinarith [hlog, h6, hpos]

theorem relevance_scenario : relevanceOf c4Profile c4Video = 5 := by
  unfold relevanceOf
  rw [show extractKeywords (fullTextOf c4Video) = ["music", "video", "ch"] from by decide]
  have h1 : kwGet c4Profile "music" = some 5 := rfl
  have h2 : kwGet c4Profile "video" = none := rfl
  have h3 : kwGet c4Profile "ch" = none := rfl
  simp only [List.map_cons, List.map_nil, h1, h2, h3, Option.getD_some, Option.getD_none,
    List.sum_cons, List.sum_nil]
  norm_num

theorem popularity_scenario : popularityOf c4Video = Real.logb 10 1000001 := by
  unfold popularityOf
  rw [show parseViews c4Video.views = some 1000000 from by decide]
  norm_num

theorem freshness_scenario : freshnessOf c4Video = (1 - 2 / 60) * 5 := by
  unfold freshnessOf
  rw [show parseUploadedAt c4Video.uploadedAt = 2 from by decide]
  unfold freshnessScoreOfDays
  rw [max_eq_right (by norm_num : (0:ℝ) ≤ 1 - (2:ℕ) / 60)]
  norm_num

/-- C4: every scored candidate carries the composite score
`relevance*1.5 + popularity*0.3 + freshness*1.0`; in the reference scenario
(profile music→5, title "music video", 1,000,000 views, uploaded 2日前) the
score is `5*1.5 + log10(1000001)*0.3 + ((1-2/60)*5)*1.0`, within 0.01 of
14.13. -/
theorem c4_score_formula_scenario :
    (∀ (profile : KwMap) (ctx : ScoringContext) (videos : List Video) (p : Video × ℝ),
      p ∈ scorePass profile ctx videos →
      p.2 = relevanceOf profile p.1 * 1.5 + popularityOf p.1 * 0.3 + freshnessOf p.1 * 1.0) ∧
    scoreVideo c4Profile c4Video =
      5 * 1.5 + Real.logb 10 1000001 * 0.3 + ((1 - 2 / 60) * 5) * 1.0 ∧
    |scoreVideo c4Profile c4Video - 14.13| < 0.01 := by
  have hval : scoreVideo c4Profile c4Video =
      5 * 1.5 + Real.logb 10 1000001 * 0.3 + ((1 - 2 / 60) * 5) * 1.0 := by
    unfold scoreVideo
    rw [relevance_scenario, popularity_scenario, freshness_scenario]
  refine ⟨?_, hval, ?_⟩
  · intro profile ctx videos p hp
    rw [scorePass_score profile ctx videos p hp]
    rfl
  · rw [hval, abs_lt]
    have hlo := logb_scenario_lower
    have hhi := logb_scenario_upper
    constructor <;> nlinarith [hlo, hhi]

/-- C4 witness: the scenario candidate passes the scoring loop and its
recorded score has the composite shape. -/
theorem c4_witness :
    (c4Video, scoreVideo c4Profile c4Video) ∈ scorePass c4Profile c4Ctx [c4Video] ∧
    ((c4Video, scoreVideo c4Profile c4Video) : Video × ℝ).2 =
      relevanceOf c4Profile c4Video * 1.5 + popularityOf c4Video * 0.3 +
        freshnessOf c4Video * 1.0 := by
  have hmem : (c4Video, scoreVideo c4Profile c4Video) ∈ scorePass c4Profile c4Ctx [c4Video] := by
    unfold scorePass scoreStep
    simp only [List.foldl_cons, List.foldl_nil, c4Ctx, List.map_nil]
    rw [if_neg (by decide), if_neg (by decide)]
    simp
  exact ⟨hmem, c4_score_formula_scenario.1 c4Profile c4Ctx [c4Video] _ hmem⟩

/-! ## Keyword-extractor idempotence -/

theorem splitWordsAux_mem : ∀ (cs acc : List Char),
    (∀ c ∈ acc, isSpaceChar c = false) →
    ∀ t ∈ splitWordsAux cs acc,
      t ≠ [] ∧ ∀ c ∈ t, isSpaceChar c = false ∧ (c ∈ cs ∨ c ∈ acc) := by
  intro cs
  induction cs with
  | nil =>
    intro acc hacc t ht
    unfold splitWordsAux at ht
    split_ifs at ht with he
    · simp at ht
    · simp only [List.mem_singleton] at ht
      subst ht
      constructor
      · simp only [ne_eq, List.reverse_eq_nil_iff]
        exact fun h => he (by simp [h])
      · intro c hc
        rw [List.mem_reverse] at hc
        exact ⟨hacc c hc, Or.inr hc⟩
  | cons c rest ih =>
    intro acc hacc t ht
    unfold splitWordsAux at ht
    split_ifs at ht with hsp he
    · obtain ⟨hne, hprop⟩ := ih [] (by simp) t ht
      refine ⟨hne, fun d hd => ?_⟩
      obtain ⟨hs, hmem⟩ := hprop d hd
      rcases hmem with h | h
      · exact ⟨hs, Or.inl (List.mem_cons_of_mem _ h)⟩
      · simp at h
    · rcases List.mem_cons.mp ht with h | h
      · subst h
        constructor
        · simp only [ne_eq, List.reverse_eq_nil_iff]
          exact fun h => he (by simp [h])
        · intro d hd
          rw [List.mem_reverse] at hd
          exact ⟨hacc d hd, Or.inr hd⟩
      · obtain ⟨hne, hprop⟩ := ih [] (by simp) t h
        refine ⟨hne, fun d hd => ?_⟩
        obtain ⟨hs, hmem⟩ := hprop d hd
        rcases hmem with hh | hh
        · exact ⟨hs, Or.inl (List.mem_cons_of_mem _ hh)⟩
        · simp at hh
    · have hacc2 : ∀ d ∈ c :: acc, isSpaceChar d = false := by
        intro d hd
        rcases List.mem_cons.mp hd with h | h
        · subst h
          cases hv : isSpaceChar d
          · rfl
          · exact absurd hv hsp
        · exact hacc d h
      obtain ⟨hne, hprop⟩ := ih (c :: acc) hacc2 t ht
      refine ⟨hne, fun d hd => ?_⟩
      obtain ⟨hs, hmem⟩ := hprop d hd
      rcases hmem with h | h
      · exact ⟨hs, Or.inl (List.mem_cons_of_mem _ h)⟩
      · rcases List.mem_cons.mp h with hh | hh
        · exact ⟨hs, Or.inl (hh ▸ List.mem_cons_self _ _)⟩
        · exact ⟨hs, Or.inr hh⟩

theorem joinChars_mem : ∀ (ws : List (List Char)) (c : Char), c ∈ joinChars ws →
    c = ' ' ∨ ∃ w ∈ ws, c ∈ w := by
  intro ws
  induction ws with
  | nil =>
    intro c hc
    simp [joinChars] at hc
  | cons w ws ih =>
    intro c hc
    cases ws with
    | nil =>
      rw [show joinChars [w] = w from rfl] at hc
      exact Or.inr ⟨w, by simp, hc⟩
    | cons w2 ws2 =>
      rw [show joinChars (w :: w2 :: ws2) = w ++ ' ' :: joinChars (w2 :: ws2) from rfl] at hc
      rcases List.mem_append.mp hc with h | h
      · exact Or.inr ⟨w, by simp, h⟩
      · rcases List.mem_cons.mp h with h | h
        · exact Or.inl h
        · rcases ih c h with h | ⟨w', hw', hc'⟩
          · exact Or.inl h
          · exact Or.inr ⟨w', List.mem_cons_of_mem _ hw', hc'⟩

theorem splitWordsAux_word : ∀ (w rest acc : List Char),
    (∀ c ∈ w, isSpaceChar c = false) →
    splitWordsAux (w ++ rest) acc = splitWordsAux rest (w.reverse ++ acc) := by
  intro w
  induction w with
  | nil =>
    intro rest acc _
    simp
  | cons c w' ih =>
    intro rest acc hw
    have hc : isSpaceChar c = false := hw c (by simp)
    rw [List.cons_append]
    conv_lhs => unfold splitWordsAux
    rw [if_neg (by simp [hc])]
    rw [ih rest (c :: acc) (fun d hd => hw d (by simp [hd]))]
    congr 1
    simp

theorem splitWordsAux_space (rest acc : List Char) (hne : acc ≠ []) :
    splitWordsAux (' ' :: rest) acc = acc.reverse :: splitWordsAux rest [] := by
  conv_lhs => unfold splitWordsAux
  rw [if_pos (by decide), if_neg (by simpa using hne)]

theorem splitWordsAux_final (acc : List Char) (hne : acc ≠ []) :
    splitWordsAux [] acc = [acc.reverse] := by
  conv_lhs => unfold splitWordsAux
  rw [if_neg (by simpa using hne)]

theorem splitWords_joinChars : ∀ (ws : List (List Char)),
    (∀ w ∈ ws, w ≠ [] ∧ ∀ c ∈ w, isSpaceChar c = false) →
    splitWords (joinChars ws) = ws := by
  intro ws
  induction ws with
  | nil =>
    intro _
    rfl
  | cons w ws ih =>
    intro hws
    obtain ⟨hwne, hwsp⟩ := hws w (by simp)
    cases ws with
    | nil =>
      show splitWordsAux (joinChars [w]) [] = [w]
      rw [show joinChars [w] = w from rfl]
      have h1 := splitWordsAux_word w [] [] hwsp
      rw [List.append_nil] at h1
      rw [h1, List.append_nil, splitWordsAux_final _ (by simpa using hwne),
        List.reverse_reverse]
    | cons w2 ws2 =>
      show splitWordsAux (joinChars (w :: w2 :: ws2)) [] = w :: w2 :: ws2
      rw [show joinChars (w :: w2 :: ws2) = w ++ ' ' :: joinChars (w2 :: ws2) from rfl]
      rw [splitWordsAux_word w _ [] hwsp, List.append_nil]
      rw [splitWordsAux_space _ _ (by simpa using hwne), List.reverse_reverse]
      congr 1
      exact ih (fun u hu => hws u (List.mem_cons_of_mem _ hu))

theorem cleanChars_fix (cs : List Char)
    (h : ∀ c ∈ cs, c = ' ' ∨ (isStripped c = false ∧ lowerChar c = c)) :
    cleanChars cs = cs := by
  unfold cleanChars
  have hcong : ∀ c ∈ cs, (let lc := lowerChar c; if isStripped lc then ' ' else lc) = c := by
    intro c hc
    rcases h c hc with h1 | ⟨h1, h2⟩
    · subst h1
      decide
    · show (if isStripped (lowerChar c) = true then ' ' else lowerChar c) = c
      rw [h2, h1]
      simp
  have := List.map_congr_left hcong
  simpa using this

theorem extractKeywords_props (t : String) :
    ∀ s ∈ extractKeywords t,
      s.length > 1 ∧ stopWord s = false ∧ isNumericWord s = false ∧
      s.data ≠ [] ∧
      ∀ c ∈ s.data, isSpaceChar c = false ∧ isStripped c = false ∧ lowerChar c = c := by
  intro s hs
  unfold extractKeywords at hs
  split_ifs at hs with hempty
  · simp at hs
  · have hs1 := dedupFirst_sub _ s hs
    rw [List.mem_filter] at hs1
    obtain ⟨hs2, hflt⟩ := hs1
    rw [List.mem_filter] at hs2
    obtain ⟨hs3, hlen⟩ := hs2
    rw [List.mem_map] at hs3
    obtain ⟨w, hw, hws⟩ := hs3
    obtain ⟨hwne, hwprop⟩ := splitWordsAux_mem (cleanChars t.data) [] (by simp) w hw
    simp only [Bool.and_eq_true, Bool.not_eq_true'] at hflt
    have hdata : s.data = w := by
      rw [← hws]
    refine ⟨by simpa using hlen, hflt.1, hflt.2, by rw [hdata]; exact hwne, ?_⟩
    intro c hc
    rw [hdata] at hc
    obtain ⟨hsp, hmem⟩ := hwprop c hc
    rcases hmem with h | h
    · unfold cleanChars at h
      rw [List.mem_map] at h
      obtain ⟨c0, _, hc0⟩ := h
      by_cases hst : isStripped (lowerChar c0) = true
      · exfalso
        have hcsp : c = ' ' := by
          rw [← hc0]
          show (if isStripped (lowerChar c0) = true then ' ' else lowerChar c0) = ' '
          rw [if_pos hst]
        rw [hcsp] at hsp
        exact absurd hsp (by decide)
      · have hcl : c = lowerChar c0 := by
          rw [← hc0]
          show (if isStripped (lowerChar c0) = true then ' ' else lowerChar c0) = lowerChar c0
          rw [if_neg hst]
        refine ⟨hsp, ?_, ?_⟩
        · rw [hcl]
          cases hv : isStripped (lowerChar c0)
          · rfl
          · exact absurd hv hst
        · rw [hcl]
          exact lowerChar_idem c0
    · simp at h

theorem extract_of_good_tokens (toks : List String)
    (h : ∀ s ∈ toks,
      s.length > 1 ∧ stopWord s = false ∧ isNumericWord s = false ∧
      s.data ≠ [] ∧
      ∀ c ∈ s.data, isSpaceChar c = false ∧ isStripped c = false ∧ lowerChar c = c)
    (hnd : toks.Nodup) :
    extractKeywords (joinSpace toks) = toks := by
  cases toks with
  | nil => rfl
  | cons s ts =>
    have hJ : (joinSpace (s :: ts)).data = joinChars ((s :: ts).map String.data) := rfl
    have hJne : joinSpace (s :: ts) ≠ "" := by
      intro hemp
      have hd : (joinSpace (s :: ts)).data = [] := by
        rw [hemp]
      rw [hJ] at hd
      cases ts with
      | nil => exact (h s (by simp)).2.2.2.1 (by simpa [joinChars] using hd)
      | cons s2 ts2 =>
        rw [show joinChars ((s :: s2 :: ts2).map String.data) =
          s.data ++ ' ' :: joinChars ((s2 :: ts2).map String.data) from rfl] at hd
        simp at hd
    unfold extractKeywords
    rw [if_neg hJne]
    rw [hJ]
    rw [cleanChars_fix _ (by
      intro c hc
      rcases joinChars_mem _ c hc with h1 | ⟨w, hw, hcw⟩
      · exact Or.inl h1
      · rw [List.mem_map] at hw
        obtain ⟨u, hu, huw⟩ := hw
        have hp := (h u hu).2.2.2.2 c (by rw [← huw] at hcw; exact hcw)
        exact Or.inr ⟨hp.2.1, hp.2.2⟩)]
    rw [splitWords_joinChars _ (by
      intro w hw
      rw [List.mem_map] at hw
      obtain ⟨u, hu, huw⟩ := hw
      subst huw
      exact ⟨(h u hu).2.2.2.1, fun c hc => ((h u hu).2.2.2.2 c hc).1⟩)]
    rw [List.map_map]
    rw [show (String.mk ∘ String.data) = fun s => s from funext (fun s => rfl)]
    rw [List.map_id']
    show dedupFirst (List.filter (fun w => !stopWord w && !isNumericWord w)
        (List.filter (fun w => decide (w.length > 1)) (s :: ts))) = s :: ts
    rw [List.filter_eq_self.mpr (by
      intro a ha
      have ha2 := List.mem_of_mem_filter ha
      simp [(h a ha2).2.1, (h a ha2).2.2.1])]
    rw [List.filter_eq_self.mpr (by
      intro a ha
      have h1 := (h a ha).1
      simpa using h1)]
    exact dedupFirst_fix _ hnd

/-- C9: the keyword extractor is idempotent — extracting from the
space-joined extracted tokens returns exactly the same token list (hence the
same set). -/
theorem c9_extract_idempotent (t : String) :
    extractKeywords (joinSpace (extractKeywords t)) = extractKeywords t :=
  extract_of_good_tokens (extractKeywords t) (extractKeywords_props t)
    (extractKeywords_nodup t)
